import Mathlib

/-!
Verification of the OPTICS clustering engine (src/unnamed/part_001 and the
peak-finding wrapper of src/unnamed/part_000) against its specification.

The embedding models the C++ sources faithfully:
 - The scalar type `real` of common.hpp (a floating-point type with the
   sentinel `UNDEFINED = std::numeric_limits<real>::max()`) is modelled as
   `WithTop R` over an arbitrary linear ordered commutative ring `R`: the
   sentinel `⊤` is strictly greater than every legitimate (finite) value,
   exactly the ordering behaviour the code relies on, and the code never does
   arithmetic on the sentinel.  All theorems hold for every such `R`
   (in particular for `ℚ`); concrete witnesses instantiate `R := ℤ`.
 - `DataPoint` mirrors src/unnamed/part_002: coordinates, a mutable
   reachability distance and a processed flag.  Pointers become `Nat` handles
   into a state list; pointer comparison (the seed-set tie-break) becomes
   comparison of handles.
 - The mutable program state is passed explicitly.  Every write to a
   reachability distance is additionally recorded in a `WriteEvent` log, and
   every emission into the ordering records the reachability value the point
   held at emission time, so that the spec claims about transitions and the
   recorded stream can be stated.
 - `std::set<DataPoint*, Comp_DataPoint_Ptr_f>` (the seed queue) is modelled as
   a list of handles; `*seeds.begin()` becomes `chooseMin`, a scan for the
   minimum under the comparator of src/unnamed/part_001 lines 321-333
   (reachability ascending, then handle ascending).  The erase/insert
   discipline of `update_seeds` keeps the C++ set consistent with its mutable
   keys, so the model's membership coincides with the set contents.
 - The seed-driven while loop of `expand_cluster_order` is run with explicit
   fuel `st.length`; the invariant proofs below show this fuel is never
   exhausted (each iteration processes one previously unprocessed point).
 - `std::nth_element` followed by reading index `min_pts`
   (`squared_core_distance`, part_001 lines 285-298) is modelled by sorting
   the distance values and reading index `min_pts`: nth_element places exactly
   the sorted-order element there, and the permutation it leaves behind in
   `N_eps` is observationally irrelevant (each `update_seeds` step treats the
   elements independently, and the seed pop takes a key minimum).
 - The callback version of `expand_cluster_order` (part_001 lines 179-215)
   invokes `point_processed_callback( p)` — the outer expand root — inside the
   seed loop; the model records the callback arguments in the `cb` field and
   reproduces this faithfully.  The non-callback version (lines 102-131) is
   line-for-line identical except for the two callback invocations, so the
   state, emission and log parts of the model cover both versions.
-/

set_option linter.unusedSectionVars false

namespace OPTICS

variable {R : Type} [LinearOrderedCommRing R]

/-- The engine's scalar type: a finite value of `R` or the sentinel
`UNDEFINED`, which compares strictly greater than every finite value (as
`std::numeric_limits<real>::max()` does against legitimate distances). -/
abbrev real (R : Type) := WithTop R

/-- common.hpp line 28: the "undefined" distance sentinel. -/
def UNDEFINED {R : Type} : real R := ⊤

/-- src/unnamed/part_002: a point's coordinates plus its mutable state.  The
constructor sets `reachability_distance = UNDEFINED` and `is_processed = false`. -/
structure DataPoint (R : Type) where
  data : List R
  reachability_distance : real R := UNDEFINED
  is_processed : Bool := false
deriving DecidableEq

/-- The point store: handle `h` denotes the point at index `h`. -/
abbrev State (R : Type) := List (DataPoint R)

/-- Dereference a handle (out-of-range handles, excluded by the hypotheses of
every theorem, yield a constructor-fresh dummy point). -/
def getPt (st : State R) (h : Nat) : DataPoint R := st.getD h {data := []}

/-- `p->reachability_distance( v)`. -/
def setReach (st : State R) (h : Nat) (v : real R) : State R :=
  st.set h {getPt st h with reachability_distance := v}

/-- `p->processed( b)`. -/
def setProcessed (st : State R) (h : Nat) (b : Bool) : State R :=
  st.set h {getPt st h with is_processed := b}

/-- part_001 lines 305-317: squared Euclidean distance of two coordinate
vectors (of equal dimensionality). -/
def squared_distance (a b : List R) : R :=
  ((a.zip b).map (fun x => (x.1 - x.2) ^ 2)).sum

/-- part_001 lines 263-276: all points of `db` within distance `eps` of the
query coordinates (`eps` is squared once), including the query point itself. -/
def get_neighbors (pdata : List R) (eps : R) (db : List Nat) (st : State R) :
    List Nat :=
  db.filter (fun q => squared_distance pdata (getPt st q).data ≤ eps * eps)

/-- The distance values from a query point to a neighborhood. -/
def neighborDists (pdata : List R) (N_eps : List Nat) (st : State R) : List R :=
  N_eps.map (fun q => squared_distance pdata (getPt st q).data)

/-- part_001 lines 285-298: UNDEFINED when `|N_eps| ≤ min_pts`, otherwise the
value at index `min_pts` of the distances sorted ascending (the semantics of
`std::nth_element` + read at `min_pts`). -/
def squared_core_distance (pdata : List R) (min_pts : Nat) (N_eps : List Nat)
    (st : State R) : real R :=
  if min_pts < N_eps.length then
    (((neighborDists pdata N_eps st).insertionSort (· ≤ ·)).getD min_pts 0 : R)
  else UNDEFINED

/-- part_001 lines 321-333 (`Comp_DataPoint_Ptr_f`): reachability ascending,
ties broken by pointer (here: handle) ascending. -/
def keyLT (st : State R) (a b : Nat) : Bool :=
  decide ((getPt st a).reachability_distance < (getPt st b).reachability_distance) ||
  (decide ((getPt st a).reachability_distance = (getPt st b).reachability_distance)
    && decide (a < b))

/-- `*seeds.begin()`: the member minimal under `keyLT`. -/
def chooseMin (st : State R) : Nat → List Nat → Nat
  | best, [] => best
  | best, x :: xs => chooseMin st (if keyLT st x best then x else best) xs

/-- One recorded write to a point's reachability distance: the handle, the
value before and after, and the processed flag at the moment of the write. -/
structure WriteEvent (R : Type) where
  handle : Nat
  oldVal : real R
  newVal : real R
  wasProcessed : Bool
deriving DecidableEq

/-- Result of `update_seeds`: the new state, the new seed-set contents, and
the reachability writes it performed. -/
structure SeedsUpdate (R : Type) where
  st : State R
  seeds : List Nat
  log : List (WriteEvent R)

/-- part_001 lines 229-253: for each unprocessed neighbor `o`, compute the new
reachability candidate `max(c_dist, d²(center,o))`; insert `o` with it if `o`
was UNDEFINED, re-key `o` (erase, write, insert) if it improves, else leave
`o` untouched. -/
def update_seeds (cdata : List R) (c_dist : real R) (N_eps : List Nat)
    (st : State R) (seeds : List Nat) : SeedsUpdate R :=
  match N_eps with
  | [] => ⟨st, seeds, []⟩
  | o :: rest =>
    let od := getPt st o
    if od.is_processed then
      update_seeds cdata c_dist rest st seeds
    else
      let new_r : real R := max c_dist ((squared_distance cdata od.data : R) : real R)
      if od.reachability_distance = UNDEFINED then
        let u := update_seeds cdata c_dist rest (setReach st o new_r) (o :: seeds)
        ⟨u.st, u.seeds, ⟨o, od.reachability_distance, new_r, od.is_processed⟩ :: u.log⟩
      else if new_r < od.reachability_distance then
        let u := update_seeds cdata c_dist rest (setReach st o new_r)
                   (o :: seeds.erase o)
        ⟨u.st, u.seeds, ⟨o, od.reachability_distance, new_r, od.is_processed⟩ :: u.log⟩
      else
        update_seeds cdata c_dist rest st seeds

/-- Result of one expand (or of a whole run): final state, the emitted
ordering (handle with the reachability recorded at emission time), the
callback arguments in invocation order, and the reachability write log. -/
structure ExpandResult (R : Type) where
  st : State R
  emitted : List (Nat × real R)
  cb : List Nat
  log : List (WriteEvent R)
deriving DecidableEq

/-- part_001 lines 201-214: the seed-driven while loop.  Pops the comparator
minimum, computes its neighborhood and core distance, marks it processed,
emits it, invokes the callback — with the outer root `p`, exactly as the
source does — and updates the seeds when the popped point is a core object.
`fuel` bounds the iterations; the invariants below show `st.length` suffices. -/
def expandLoop (db : List Nat) (eps : R) (min_pts : Nat) (root : Nat) :
    Nat → State R → List Nat → ExpandResult R
  | 0, st, _ => ⟨st, [], [], []⟩
  | fuel + 1, st, seeds =>
    match seeds with
    | [] => ⟨st, [], [], []⟩
    | s :: ss =>
      let q := chooseMin st s ss
      let seeds1 := (s :: ss).erase q
      let N_q := get_neighbors (getPt st q).data eps db st
      let cd_q := squared_core_distance (getPt st q).data min_pts N_q st
      let st1 := setProcessed st q true
      let rec1 := (getPt st1 q).reachability_distance
      if cd_q = UNDEFINED then
        let r := expandLoop db eps min_pts root fuel st1 seeds1
        ⟨r.st, (q, rec1) :: r.emitted, root :: r.cb, r.log⟩
      else
        let u := update_seeds (getPt st1 q).data cd_q N_q st1 seeds1
        let r := expandLoop db eps min_pts root fuel u.st u.seeds
        ⟨r.st, (q, rec1) :: r.emitted, root :: r.cb, u.log ++ r.log⟩

/-- part_001 lines 179-215: one expand.  Sets the root's reachability to
UNDEFINED, computes its core distance, marks it processed, emits it (invoking
the callback with it), and, if it is a core object, seeds and drains the
while loop. -/
def expand_cluster_order (db : List Nat) (p : Nat) (eps : R) (min_pts : Nat)
    (st : State R) : ExpandResult R :=
  let N_eps := get_neighbors (getPt st p).data eps db st
  let rootEv : WriteEvent R :=
    ⟨p, (getPt st p).reachability_distance, UNDEFINED, (getPt st p).is_processed⟩
  let st0 := setReach st p UNDEFINED
  let core_dist_p := squared_core_distance (getPt st0 p).data min_pts N_eps st0
  let st1 := setProcessed st0 p true
  let rec0 := (getPt st1 p).reachability_distance
  if core_dist_p = UNDEFINED then
    ⟨st1, [(p, rec0)], [p], [rootEv]⟩
  else
    let u := update_seeds (getPt st1 p).data core_dist_p N_eps st1 []
    let r := expandLoop db eps min_pts p st.length u.st u.seeds
    ⟨r.st, (p, rec0) :: r.emitted, p :: r.cb, rootEv :: (u.log ++ r.log)⟩

/-- part_001 lines 156-163: the main loop — expand each still-unprocessed
point of `db` in storage order.  One `ExpandResult` per expand call is kept so
that per-expand claims (first-emission sentinel) can be stated. -/
def opticsSegs (db : List Nat) (eps : R) (min_pts : Nat) :
    List Nat → State R → State R × List (ExpandResult R)
  | [], st => (st, [])
  | p :: rest, st =>
    if (getPt st p).is_processed then
      opticsSegs db eps min_pts rest st
    else
      let e := expand_cluster_order db p eps min_pts st
      let r := opticsSegs db eps min_pts rest e.st
      (r.1, e :: r.2)

/-- The error taxonomy relevant to the core entry point. -/
inductive OpticsError where
  | InvalidParameter
deriving DecidableEq

/-- part_001 lines 148-165 (callback version; lines 78-92 are identical except
for the callback): the entry asserts `eps >= 0` and `min_pts > 0` before
touching any state; a violated assert is modelled as the InvalidParameter
error, returned before any mutation and without any ordering. -/
def optics (db : List Nat) (eps : R) (min_pts : Nat) (st : State R) :
    Except OpticsError (ExpandResult R) :=
  if eps < 0 ∨ min_pts = 0 then Except.error OpticsError.InvalidParameter
  else
    let r := opticsSegs db eps min_pts db st
    Except.ok ⟨r.1, (r.2.map ExpandResult.emitted).flatten,
               (r.2.map ExpandResult.cb).flatten, (r.2.map ExpandResult.log).flatten⟩

/-- part_001 lines 352-379, inner structure: process the segments determined
by the border list, carrying the lower bound; each segment's points above the
threshold go to the shared outlier container, the rest form that segment's
cluster. -/
def clusterLoop (result : List (DataPoint R)) (thr : real R) :
    Nat → List Nat → List (DataPoint R) × List (List (DataPoint R))
  | lo, [] =>
    let s := result.drop lo
    (s.filter (fun p => decide (thr < p.reachability_distance)),
     [s.filter (fun p => !decide (thr < p.reachability_distance))])
  | lo, b :: rest =>
    let s := (result.drop lo).take (b - lo)
    let r := clusterLoop result thr b rest
    (s.filter (fun p => decide (thr < p.reachability_distance)) ++ r.1,
     s.filter (fun p => !decide (thr < p.reachability_distance)) :: r.2)

/-- part_001 lines 352-379: bucket 0 collects the outliers (reachability above
the threshold); a non-positive threshold is replaced by the maximum value
(`UNDEFINED`), disabling outlier separation; buckets 1.. are the clusters of
the `|borders| + 1` contiguous segments. -/
def extract_clusters (result : List (DataPoint R)) (cluster_borders : List Nat)
    (outlier_threshold : real R) : List (List (DataPoint R)) :=
  let thr := if outlier_threshold ≤ 0 then UNDEFINED else outlier_threshold
  let r := clusterLoop result thr 0 cluster_borders
  r.1 :: r.2

/-- One paired extremum as produced by the Persistence1D library used by
src/unnamed/part_000 (external to this repository): a local-minimum index, the
paired local-maximum index, and the pair's persistence.  Per that library's
contract, `GetPairedExtrema` returns these sorted by persistence ascending;
the theorem about `find_k_histogram_peaks` takes that ordering as a
hypothesis. -/
structure TPairedExtrema (R : Type) where
  MinIndex : Nat
  MaxIndex : Nat
  Persistence : R
deriving DecidableEq

/-- part_000 lines 382-396: starting from the back of the extrema list (the
most persistent pair) and counting `n = 1, 2, ...` while `n < n_clusters`,
push the max-indices; i.e. the max-indices of the last
`min(|extrema|, n_clusters - 1)` entries, in reverse order. -/
def find_k_histogram_peaks (extrema : List (TPairedExtrema R)) (n_clusters : Nat) :
    List Nat :=
  (extrema.reverse.take (n_clusters - 1)).map TPairedExtrema.MaxIndex

/-- The number of unprocessed points in a store (the termination measure of the
seed loop). -/
def countUnproc (st : State R) : Nat := st.countP (fun d => !d.is_processed)

/-- What one `update_seeds` call guarantees, relating its input state/seed set
to its output.  (`nd`/`mem` are the seed-queue invariant; `chg` says only
current seed members ever had their reachability written; `log` records that
every write hit an unprocessed in-range point that is now a seed member, and
was either a first assignment from UNDEFINED or a strict improvement.) -/
structure UpdateSpec (st : State R) (seeds N : List Nat) (u : SeedsUpdate R) : Prop where
  len : u.st.length = st.length
  proc : ∀ k, (getPt u.st k).is_processed = (getPt st k).is_processed
  data : ∀ k, (getPt u.st k).data = (getPt st k).data
  cnt : countUnproc u.st = countUnproc st
  nd : u.seeds.Nodup
  mem : ∀ h ∈ u.seeds, h < st.length ∧ (getPt u.st h).is_processed = false ∧
      (getPt u.st h).reachability_distance ≠ UNDEFINED
  sub : ∀ h ∈ u.seeds, h ∈ seeds ∨ h ∈ N
  grow : ∀ h ∈ seeds, h ∈ u.seeds
  chg : ∀ k, (getPt u.st k).reachability_distance ≠ (getPt st k).reachability_distance →
      k ∈ u.seeds
  log : ∀ ev ∈ u.log, ev.wasProcessed = false ∧
      (getPt st ev.handle).is_processed = false ∧ ev.handle < st.length ∧
      ev.handle ∈ u.seeds ∧
      (ev.oldVal = UNDEFINED ∧ ev.newVal ≠ UNDEFINED ∨
       ev.newVal < ev.oldVal ∧ ev.oldVal ≠ UNDEFINED ∧ ev.newVal ≠ UNDEFINED)

/-- What a full run of the seed-driven while loop guarantees. -/
structure LoopSpec (st : State R) (seeds db : List Nat) (r : ExpandResult R) : Prop where
  len : r.st.length = st.length
  proc_mono : ∀ k, (getPt st k).is_processed = true → (getPt r.st k).is_processed = true
  data : ∀ k, (getPt r.st k).data = (getPt st k).data
  emitted_src : ∀ x ∈ r.emitted, x.1 < st.length ∧
      (getPt st x.1).is_processed = false ∧ x.1 ∈ db
  emitted_nd : (r.emitted.map Prod.fst).Nodup
  proc_iff : ∀ k, (getPt r.st k).is_processed = true ↔
      ((getPt st k).is_processed = true ∨ k ∈ r.emitted.map Prod.fst)
  fresh_out : ∀ k, k < st.length → (getPt r.st k).is_processed = false →
      (getPt r.st k).reachability_distance = UNDEFINED
  seeds_done : ∀ h ∈ seeds, (getPt r.st h).is_processed = true
  keep : ∀ k, (getPt st k).is_processed = true →
      (getPt r.st k).reachability_distance = (getPt st k).reachability_distance
  log : ∀ ev ∈ r.log, ev.wasProcessed = false ∧
      (getPt st ev.handle).is_processed = false ∧ ev.handle < st.length ∧
      (getPt r.st ev.handle).is_processed = true ∧
      (ev.oldVal = UNDEFINED ∧ ev.newVal ≠ UNDEFINED ∨
       ev.newVal < ev.oldVal ∧ ev.oldVal ≠ UNDEFINED ∧ ev.newVal ≠ UNDEFINED)

/-- What one `expand_cluster_order` call guarantees. -/
structure ExpandSpec (st : State R) (p : Nat) (db : List Nat) (e : ExpandResult R) : Prop where
  len : e.st.length = st.length
  proc_mono : ∀ k, (getPt st k).is_processed = true → (getPt e.st k).is_processed = true
  data : ∀ k, (getPt e.st k).data = (getPt st k).data
  head : e.emitted.headI = (p, UNDEFINED)
  nonempty : e.emitted ≠ []
  emitted_src : ∀ x ∈ e.emitted, x.1 < st.length ∧
      (getPt st x.1).is_processed = false ∧ x.1 ∈ db
  emitted_nd : (e.emitted.map Prod.fst).Nodup
  proc_iff : ∀ k, (getPt e.st k).is_processed = true ↔
      ((getPt st k).is_processed = true ∨ k ∈ e.emitted.map Prod.fst)
  fresh_out : ∀ k, k < st.length → (getPt e.st k).is_processed = false →
      (getPt e.st k).reachability_distance = UNDEFINED
  root_proc : (getPt e.st p).is_processed = true
  root_reach : (getPt e.st p).reachability_distance = UNDEFINED
  keep : ∀ k, (getPt st k).is_processed = true →
      (getPt e.st k).reachability_distance = (getPt st k).reachability_distance
  log : ∀ ev ∈ e.log, ev.wasProcessed = false ∧
      (getPt st ev.handle).is_processed = false ∧ ev.handle < st.length ∧
      (getPt e.st ev.handle).is_processed = true ∧
      (ev.oldVal = ev.newVal ∨ ev.oldVal = UNDEFINED ∧ ev.newVal ≠ UNDEFINED ∨
       ev.newVal < ev.oldVal ∧ ev.oldVal ≠ UNDEFINED ∧ ev.newVal ≠ UNDEFINED)

/-- What the main loop (`opticsSegs`) guarantees over a whole run. -/
structure RunSpec (st : State R) (db work : List Nat)
    (out : State R × List (ExpandResult R)) : Prop where
  len : out.1.length = st.length
  proc_mono : ∀ k, (getPt st k).is_processed = true → (getPt out.1 k).is_processed = true
  work_done : ∀ p ∈ work, (getPt out.1 p).is_processed = true
  emitted_src : ∀ x ∈ (out.2.map ExpandResult.emitted).flatten,
      x.1 < st.length ∧ (getPt st x.1).is_processed = false ∧ x.1 ∈ db
  emitted_nd : (((out.2.map ExpandResult.emitted).flatten).map Prod.fst).Nodup
  proc_iff : ∀ k, (getPt out.1 k).is_processed = true ↔
      ((getPt st k).is_processed = true ∨
        k ∈ ((out.2.map ExpandResult.emitted).flatten).map Prod.fst)
  keep : ∀ k, (getPt st k).is_processed = true →
      (getPt out.1 k).reachability_distance = (getPt st k).reachability_distance
  segs : ∀ e ∈ out.2, e.emitted ≠ [] ∧ e.emitted.headI.2 = UNDEFINED ∧
      (getPt out.1 e.emitted.headI.1).reachability_distance = UNDEFINED
  log : ∀ ev ∈ (out.2.map ExpandResult.log).flatten, ev.wasProcessed = false ∧
      (ev.oldVal = ev.newVal ∨ ev.oldVal = UNDEFINED ∧ ev.newVal ≠ UNDEFINED ∨
       ev.newVal < ev.oldVal ∧ ev.oldVal ≠ UNDEFINED ∧ ev.newVal ≠ UNDEFINED)
  fresh_out : ∀ k, k < st.length → (getPt out.1 k).is_processed = false →
      (getPt out.1 k).reachability_distance = UNDEFINED

theorem getPt_set (l : State R) (i k : Nat) (x : DataPoint R) :
    getPt (l.set i x) k = if k = i ∧ i < l.length then x else getPt l k := by
  induction l generalizing i k with
  | nil => simp [getPt]
  | cons a as ih =>
    cases i with
    | zero =>
      cases k with
      | zero => simp [getPt]
      | succ m => simp [getPt, List.getD_cons_succ]
    | succ n =>
      cases k with
      | zero => simp [getPt]
      | succ m =>
        have := ih n m
        simp only [List.set_cons_succ, getPt, List.getD_cons_succ] at this ⊢
        rw [this]
        simp only [List.length_cons]
        by_cases h1 : m = n
        · subst h1
          by_cases h2 : m < as.length
          · simp [h2, Nat.succ_lt_succ h2]
          · simp [h2, fun hh => h2 (Nat.lt_of_succ_lt_succ hh)]
        · simp [h1, fun (hh : m + 1 = n + 1) => h1 (Nat.succ_injective hh)]

theorem length_setReach (st : State R) (h : Nat) (v : real R) :
    (setReach st h v).length = st.length := List.length_set st h _

theorem length_setProcessed (st : State R) (h : Nat) (b : Bool) :
    (setProcessed st h b).length = st.length := List.length_set st h _

theorem getPt_setReach_proc (st : State R) (h k : Nat) (v : real R) :
    (getPt (setReach st h v) k).is_processed = (getPt st k).is_processed := by
  rw [setReach, getPt_set]
  split
  · next hc => rw [hc.1]
  · rfl

theorem getPt_setReach_data (st : State R) (h k : Nat) (v : real R) :
    (getPt (setReach st h v) k).data = (getPt st k).data := by
  rw [setReach, getPt_set]
  split
  · next hc => rw [hc.1]
  · rfl

theorem getPt_setReach_self (st : State R) {h : Nat} (hh : h < st.length) (v : real R) :
    (getPt (setReach st h v) h).reachability_distance = v := by
  rw [setReach, getPt_set]
  simp [hh]

theorem getPt_setReach_ne (st : State R) {h k : Nat} (hk : k ≠ h) (v : real R) :
    getPt (setReach st h v) k = getPt st k := by
  rw [setReach, getPt_set]
  simp [hk]

theorem getPt_setProcessed_reach (st : State R) (h k : Nat) (b : Bool) :
    (getPt (setProcessed st h b) k).reachability_distance =
      (getPt st k).reachability_distance := by
  rw [setProcessed, getPt_set]
  split
  · next hc => rw [hc.1]
  · rfl

theorem getPt_setProcessed_data (st : State R) (h k : Nat) (b : Bool) :
    (getPt (setProcessed st h b) k).data = (getPt st k).data := by
  rw [setProcessed, getPt_set]
  split
  · next hc => rw [hc.1]
  · rfl

theorem getPt_setProcessed_self (st : State R) {h : Nat} (hh : h < st.length) (b : Bool) :
    (getPt (setProcessed st h b) h).is_processed = b := by
  rw [setProcessed, getPt_set]
  simp [hh]

theorem getPt_setProcessed_ne (st : State R) {h k : Nat} (hk : k ≠ h) (b : Bool) :
    getPt (setProcessed st h b) k = getPt st k := by
  rw [setProcessed, getPt_set]
  simp [hk]

theorem getPt_setProcessed_proc_iff (st : State R) {h : Nat} (hh : h < st.length) (k : Nat) :
    (getPt (setProcessed st h true) k).is_processed = true ↔
      ((getPt st k).is_processed = true ∨ k = h) := by
  by_cases hk : k = h
  · subst hk
    simp [getPt_setProcessed_self st hh]
  · rw [getPt_setProcessed_ne st hk]
    simp [hk]

theorem countUnproc_le_length (st : State R) : countUnproc st ≤ st.length :=
  List.countP_le_length _

theorem countUnproc_set (st : State R) (h : Nat) (x : DataPoint R)
    (hx : x.is_processed = (getPt st h).is_processed) :
    countUnproc (st.set h x) = countUnproc st := by
  induction st generalizing h with
  | nil => rfl
  | cons a as ih =>
    cases h with
    | zero =>
      simp only [getPt, List.getD_cons_zero] at hx
      simp [countUnproc, List.countP_cons, hx]
    | succ n =>
      simp only [getPt, List.getD_cons_succ] at hx
      simp only [List.set_cons_succ, countUnproc, List.countP_cons]
      have := ih n hx
      simp only [countUnproc] at this
      omega

theorem countUnproc_setReach (st : State R) (h : Nat) (v : real R) :
    countUnproc (setReach st h v) = countUnproc st := by
  by_cases hh : h < st.length
  · exact countUnproc_set st h _ rfl
  · rw [setReach, List.set_eq_of_length_le (Nat.le_of_not_lt hh)]

theorem countUnproc_setProcessed_true (st : State R) {h : Nat} (hh : h < st.length)
    (hu : (getPt st h).is_processed = false) :
    countUnproc st = countUnproc (setProcessed st h true) + 1 := by
  induction st generalizing h with
  | nil => simp at hh
  | cons a as ih =>
    cases h with
    | zero =>
      simp only [getPt, List.getD_cons_zero] at hu
      simp [countUnproc, setProcessed, getPt, List.countP_cons, hu]
    | succ n =>
      simp only [getPt, List.getD_cons_succ] at hu
      have hn : n < as.length := Nat.lt_of_succ_lt_succ (by simpa using hh)
      have := ih hn hu
      simp only [countUnproc, setProcessed, getPt, List.getD_cons_succ,
        List.set_cons_succ, List.countP_cons] at this ⊢
      omega

theorem getPt_mem (st : State R) {h : Nat} (hh : h < st.length) : getPt st h ∈ st := by
  rw [getPt, List.getD_eq_getElem st _ hh]
  exact List.getElem_mem hh

theorem countUnproc_zero_all_processed (st : State R) (hc : countUnproc st = 0)
    {h : Nat} (hh : h < st.length) : (getPt st h).is_processed = true := by
  have := List.countP_eq_zero.mp hc (getPt st h) (getPt_mem st hh)
  simpa using this

theorem UNDEFINED_eq : (UNDEFINED : real R) = ⊤ := rfl

theorem update_seeds_spec (cdata : List R) (c_dist : real R) (N_eps : List Nat)
    (st : State R) (seeds : List Nat)
    (hcd : c_dist ≠ UNDEFINED)
    (hN : ∀ h ∈ N_eps, h < st.length)
    (hnd : seeds.Nodup)
    (hmem : ∀ h ∈ seeds, h < st.length ∧ (getPt st h).is_processed = false ∧
      (getPt st h).reachability_distance ≠ UNDEFINED) :
    UpdateSpec st seeds N_eps (update_seeds cdata c_dist N_eps st seeds) := by
  induction N_eps generalizing st seeds with
  | nil =>
    rw [update_seeds]
    exact {
      len := rfl
      proc := fun _ => rfl
      data := fun _ => rfl
      cnt := rfl
      nd := hnd
      mem := hmem
      sub := fun h hh => Or.inl hh
      grow := fun _ hh => hh
      chg := fun _ hk => absurd rfl hk
      log := fun ev hev => absurd hev (List.not_mem_nil ev) }
  | cons o rest ih =>
    have hNrest : ∀ h ∈ rest, h < st.length := fun h hh => hN h (List.mem_cons_of_mem o hh)
    have holen : o < st.length := hN o (List.mem_cons_self o rest)
    cases hop : (getPt st o).is_processed with
    | true =>
      have heq : update_seeds cdata c_dist (o :: rest) st seeds =
          update_seeds cdata c_dist rest st seeds := by
        rw [update_seeds]
        simp only [hop, if_true]
      rw [heq]
      have IH := ih st seeds hNrest hnd hmem
      exact {
        len := IH.len
        proc := IH.proc
        data := IH.data
        cnt := IH.cnt
        nd := IH.nd
        mem := IH.mem
        sub := fun h hh => (IH.sub h hh).imp id (List.mem_cons_of_mem o)
        grow := IH.grow
        chg := IH.chg
        log := fun ev hev => IH.log ev hev }
    | false =>
      have hnr_ne : ∀ v : real R,
          max c_dist ((squared_distance cdata (getPt st o).data : R) : real R) ≠ UNDEFINED := by
        intro _
        have h1 : c_dist < ⊤ := by
          rw [UNDEFINED_eq] at hcd
          exact hcd.lt_top
        have h2 : ((squared_distance cdata (getPt st o).data : R) : real R) < ⊤ :=
          WithTop.coe_lt_top _
        rw [UNDEFINED_eq]
        exact (max_lt h1 h2).ne
      set new_r : real R :=
        max c_dist ((squared_distance cdata (getPt st o).data : R) : real R) with hnew_r
      by_cases hrd : (getPt st o).reachability_distance = UNDEFINED
      · -- o is newly reached: set reachability and insert into seeds
        have heq : update_seeds cdata c_dist (o :: rest) st seeds =
            ⟨(update_seeds cdata c_dist rest (setReach st o new_r) (o :: seeds)).st,
             (update_seeds cdata c_dist rest (setReach st o new_r) (o :: seeds)).seeds,
             ⟨o, (getPt st o).reachability_distance, new_r, (getPt st o).is_processed⟩ ::
               (update_seeds cdata c_dist rest (setReach st o new_r) (o :: seeds)).log⟩ := by
          rw [update_seeds]
          simp only [hop, hrd, if_false, if_true, Bool.false_eq_true, ← hnew_r]
        rw [heq]
        have honot : o ∉ seeds := fun hmem' => (hmem o hmem').2.2 hrd
        have hlen' : (setReach st o new_r).length = st.length := length_setReach st o new_r
        have hNrest' : ∀ h ∈ rest, h < (setReach st o new_r).length := by
          rw [hlen']; exact hNrest
        have hnd' : (o :: seeds).Nodup := List.nodup_cons.mpr ⟨honot, hnd⟩
        have hmem' : ∀ h ∈ o :: seeds, h < (setReach st o new_r).length ∧
            (getPt (setReach st o new_r) h).is_processed = false ∧
            (getPt (setReach st o new_r) h).reachability_distance ≠ UNDEFINED := by
          intro h hh
          rcases List.mem_cons.mp hh with h1 | h1
          · subst h1
            refine ⟨by rw [hlen']; exact holen, ?_, ?_⟩
            · rw [getPt_setReach_proc]; exact hop
            · rw [getPt_setReach_self st holen]; exact hnr_ne new_r
          · have hne : h ≠ o := fun hc => honot (hc ▸ h1)
            rw [getPt_setReach_ne st hne, hlen']
            exact hmem h h1
        have IH := ih (setReach st o new_r) (o :: seeds) hNrest' hnd' hmem'
        refine {
          len := IH.len.trans hlen'
          proc := fun k => (IH.proc k).trans (getPt_setReach_proc st o k new_r)
          data := fun k => (IH.data k).trans (getPt_setReach_data st o k new_r)
          cnt := IH.cnt.trans (countUnproc_setReach st o new_r)
          nd := IH.nd
          mem := ?_
          sub := ?_
          grow := fun h hh => IH.grow h (List.mem_cons_of_mem o hh)
          chg := ?_
          log := ?_ }
        · intro h hh
          have := IH.mem h hh
          rw [hlen'] at this
          exact this
        · intro h hh
          rcases IH.sub h hh with h1 | h1
          · rcases List.mem_cons.mp h1 with h2 | h2
            · exact Or.inr (h2 ▸ List.mem_cons_self o rest)
            · exact Or.inl h2
          · exact Or.inr (List.mem_cons_of_mem o h1)
        · intro k hk
          by_cases hk2 : (getPt (update_seeds cdata c_dist rest (setReach st o new_r)
              (o :: seeds)).st k).reachability_distance =
              (getPt (setReach st o new_r) k).reachability_distance
          · by_cases hko : k = o
            · subst hko
              exact IH.grow k (List.mem_cons_self k seeds)
            · rw [hk2, getPt_setReach_ne st hko] at hk
              exact absurd rfl hk
          · exact IH.chg k hk2
        · intro ev hev
          rcases List.mem_cons.mp hev with h1 | h1
          · subst h1
            exact ⟨hop, hop, holen, IH.grow o (List.mem_cons_self o seeds),
              Or.inl ⟨hrd, hnr_ne new_r⟩⟩
          · have := IH.log ev h1
            rw [getPt_setReach_proc, hlen'] at this
            exact this
      · by_cases himp : new_r < (getPt st o).reachability_distance
        · -- o improves: erase, rewrite the key, re-insert
          have heq : update_seeds cdata c_dist (o :: rest) st seeds =
              ⟨(update_seeds cdata c_dist rest (setReach st o new_r)
                  (o :: seeds.erase o)).st,
               (update_seeds cdata c_dist rest (setReach st o new_r)
                  (o :: seeds.erase o)).seeds,
               ⟨o, (getPt st o).reachability_distance, new_r, (getPt st o).is_processed⟩ ::
                 (update_seeds cdata c_dist rest (setReach st o new_r)
                    (o :: seeds.erase o)).log⟩ := by
            rw [update_seeds]
            simp only [hop, hrd, himp, if_false, if_true, Bool.false_eq_true, ← hnew_r]
          rw [heq]
          have hlen' : (setReach st o new_r).length = st.length := length_setReach st o new_r
          have hNrest' : ∀ h ∈ rest, h < (setReach st o new_r).length := by
            rw [hlen']; exact hNrest
          have hnd' : (o :: seeds.erase o).Nodup :=
            List.nodup_cons.mpr ⟨hnd.not_mem_erase, hnd.erase o⟩
          have hmem' : ∀ h ∈ o :: seeds.erase o, h < (setReach st o new_r).length ∧
              (getPt (setReach st o new_r) h).is_processed = false ∧
              (getPt (setReach st o new_r) h).reachability_distance ≠ UNDEFINED := by
            intro h hh
            rcases List.mem_cons.mp hh with h1 | h1
            · subst h1
              refine ⟨by rw [hlen']; exact holen, ?_, ?_⟩
              · rw [getPt_setReach_proc]; exact hop
              · rw [getPt_setReach_self st holen]; exact hnr_ne new_r
            · have h2 := (hnd.mem_erase_iff.mp h1)
              rw [getPt_setReach_ne st h2.1, hlen']
              exact hmem h h2.2
          have IH := ih (setReach st o new_r) (o :: seeds.erase o) hNrest' hnd' hmem'
          refine {
            len := IH.len.trans hlen'
            proc := fun k => (IH.proc k).trans (getPt_setReach_proc st o k new_r)
            data := fun k => (IH.data k).trans (getPt_setReach_data st o k new_r)
            cnt := IH.cnt.trans (countUnproc_setReach st o new_r)
            nd := IH.nd
            mem := ?_
            sub := ?_
            grow := ?_
            chg := ?_
            log := ?_ }
          · intro h hh
            have := IH.mem h hh
            rw [hlen'] at this
            exact this
          · intro h hh
            rcases IH.sub h hh with h1 | h1
            · rcases List.mem_cons.mp h1 with h2 | h2
              · exact Or.inr (h2 ▸ List.mem_cons_self o rest)
              · exact Or.inl (hnd.mem_erase_iff.mp h2).2
            · exact Or.inr (List.mem_cons_of_mem o h1)
          · intro h hh
            by_cases hho : h = o
            · exact IH.grow h (hho ▸ List.mem_cons_self o (seeds.erase o))
            · exact IH.grow h (List.mem_cons_of_mem o ((List.mem_erase_of_ne hho).mpr hh))
          · intro k hk
            by_cases hk2 : (getPt (update_seeds cdata c_dist rest (setReach st o new_r)
                (o :: seeds.erase o)).st k).reachability_distance =
                (getPt (setReach st o new_r) k).reachability_distance
            · by_cases hko : k = o
              · subst hko
                exact IH.grow k (List.mem_cons_self k (seeds.erase k))
              · rw [hk2, getPt_setReach_ne st hko] at hk
                exact absurd rfl hk
            · exact IH.chg k hk2
          · intro ev hev
            rcases List.mem_cons.mp hev with h1 | h1
            · subst h1
              exact ⟨hop, hop, holen,
                IH.grow o (List.mem_cons_self o (seeds.erase o)),
                Or.inr ⟨himp, hrd, hnr_ne new_r⟩⟩
            · have := IH.log ev h1
              rw [getPt_setReach_proc, hlen'] at this
              exact this
        · -- no improvement: o is left untouched
          have heq : update_seeds cdata c_dist (o :: rest) st seeds =
              update_seeds cdata c_dist rest st seeds := by
            rw [update_seeds]
            simp only [hop, hrd, himp, if_false, Bool.false_eq_true, ← hnew_r]
          rw [heq]
          have IH := ih st seeds hNrest hnd hmem
          exact {
            len := IH.len
            proc := IH.proc
            data := IH.data
            cnt := IH.cnt
            nd := IH.nd
            mem := IH.mem
            sub := fun h hh => (IH.sub h hh).imp id (List.mem_cons_of_mem o)
            grow := IH.grow
            chg := IH.chg
            log := fun ev hev => IH.log ev hev }

theorem chooseMin_mem (st : State R) (best : Nat) (l : List Nat) :
    chooseMin st best l ∈ best :: l := by
  induction l generalizing best with
  | nil => simp [chooseMin]
  | cons x xs ih =>
    rw [chooseMin]
    rcases List.mem_cons.mp (ih (if keyLT st x best then x else best)) with h1 | h1
    · rw [h1]
      split
      · exact List.mem_cons_of_mem _ (List.mem_cons_self _ _)
      · exact List.mem_cons_self _ _
    · exact List.mem_cons_of_mem _ (List.mem_cons_of_mem _ h1)

theorem expandLoop_spec (db : List Nat) (eps : R) (min_pts : Nat) (root : Nat)
    (fuel : Nat) :
    ∀ (st : State R) (seeds : List Nat),
    (∀ h ∈ db, h < st.length) →
    countUnproc st ≤ fuel →
    seeds.Nodup →
    (∀ h ∈ seeds, h < st.length ∧ (getPt st h).is_processed = false ∧
      (getPt st h).reachability_distance ≠ UNDEFINED) →
    (∀ h ∈ seeds, h ∈ db) →
    (∀ k, k < st.length → (getPt st k).is_processed = false →
      k ∈ seeds ∨ (getPt st k).reachability_distance = UNDEFINED) →
    LoopSpec st seeds db (expandLoop db eps min_pts root fuel st seeds) := by
  induction fuel with
  | zero =>
    intro st seeds hdb hfuel hnd hmem hsdb hiii
    rw [expandLoop]
    have hall : ∀ k, k < st.length → (getPt st k).is_processed = true :=
      fun k hk => countUnproc_zero_all_processed st (Nat.le_zero.mp hfuel) hk
    exact {
      len := rfl
      proc_mono := fun _ hk => hk
      data := fun _ => rfl
      emitted_src := fun x hx => absurd hx (List.not_mem_nil x)
      emitted_nd := List.nodup_nil
      proc_iff := fun k => by simp
      fresh_out := fun k hk hkp => absurd (hall k hk) (by rw [hkp]; simp)
      seeds_done := fun h hh => hall h (hmem h hh).1
      keep := fun _ _ => rfl
      log := fun ev hev => absurd hev (List.not_mem_nil ev) }
  | succ fuel ih =>
    intro st seeds hdb hfuel hnd hmem hsdb hiii
    match seeds with
    | [] =>
      rw [expandLoop]
      exact {
        len := rfl
        proc_mono := fun _ hk => hk
        data := fun _ => rfl
        emitted_src := fun x hx => absurd hx (List.not_mem_nil x)
        emitted_nd := List.nodup_nil
        proc_iff := fun k => by simp
        fresh_out := fun k hk hkp => (hiii k hk hkp).resolve_left (List.not_mem_nil k)
        seeds_done := fun h hh => absurd hh (List.not_mem_nil h)
        keep := fun _ _ => rfl
        log := fun ev hev => absurd hev (List.not_mem_nil ev) }
    | s :: ss =>
      have hqmem : chooseMin st s ss ∈ s :: ss := chooseMin_mem st s ss
      obtain ⟨hqlen, hqproc, _⟩ := hmem _ hqmem
      set q := chooseMin st s ss with hq_def
      set seeds1 := (s :: ss).erase q with hseeds1_def
      set st1 := setProcessed st q true with hst1_def
      set N_q := get_neighbors (getPt st q).data eps db st with hNq_def
      set cd_q := squared_core_distance (getPt st q).data min_pts N_q st with hcd_def
      have hlen1 : st1.length = st.length := length_setProcessed st q true
      have hproc1self : (getPt st1 q).is_processed = true := getPt_setProcessed_self st hqlen true
      have proc_iff1 : ∀ k, (getPt st1 k).is_processed = true ↔
          ((getPt st k).is_processed = true ∨ k = q) :=
        fun k => getPt_setProcessed_proc_iff st hqlen k
      have mono1 : ∀ k, (getPt st k).is_processed = true →
          (getPt st1 k).is_processed = true :=
        fun k hk => (proc_iff1 k).mpr (Or.inl hk)
      have mono_contra1 : ∀ k, (getPt st1 k).is_processed = false →
          (getPt st k).is_processed = false := by
        intro k hk
        cases hsk : (getPt st k).is_processed
        · rfl
        · rw [mono1 k hsk] at hk
          cases hk
      have hcnt1 : countUnproc st = countUnproc st1 + 1 :=
        countUnproc_setProcessed_true st hqlen hqproc
      have hfuel1 : countUnproc st1 ≤ fuel := by omega
      have hnd1 : seeds1.Nodup := hnd.erase q
      have hmem1 : ∀ h ∈ seeds1, h < st1.length ∧ (getPt st1 h).is_processed = false ∧
          (getPt st1 h).reachability_distance ≠ UNDEFINED := by
        intro h hh
        obtain ⟨hne, hin⟩ := hnd.mem_erase_iff.mp hh
        obtain ⟨h1, h2, h3⟩ := hmem h hin
        rw [getPt_setProcessed_ne st hne, hlen1]
        exact ⟨h1, h2, h3⟩
      have hsdb1 : ∀ h ∈ seeds1, h ∈ db :=
        fun h hh => hsdb h (hnd.mem_erase_iff.mp hh).2
      have hiii1 : ∀ k, k < st1.length → (getPt st1 k).is_processed = false →
          k ∈ seeds1 ∨ (getPt st1 k).reachability_distance = UNDEFINED := by
        intro k hk hkp
        have hkq : k ≠ q := by
          intro hc
          rw [hc, hproc1self] at hkp
          cases hkp
        rw [getPt_setProcessed_ne st hkq]
        rw [hlen1] at hk
        rcases hiii k hk (mono_contra1 k hkp) with h1 | h1
        · exact Or.inl ((List.mem_erase_of_ne hkq).mpr h1)
        · exact Or.inr h1
      have hNq_db : ∀ h ∈ N_q, h ∈ db := by
        intro h hh
        rw [hNq_def, get_neighbors] at hh
        exact (List.mem_filter.mp hh).1
      have hrec1 : (getPt st1 q).reachability_distance =
          (getPt st q).reachability_distance := getPt_setProcessed_reach st q q true
      by_cases hcd : cd_q = UNDEFINED
      · -- the popped point is not a core object: emit it, no seed update
        have heq : expandLoop db eps min_pts root (fuel + 1) st (s :: ss) =
            ⟨(expandLoop db eps min_pts root fuel st1 seeds1).st,
             (q, (getPt st1 q).reachability_distance) ::
               (expandLoop db eps min_pts root fuel st1 seeds1).emitted,
             root :: (expandLoop db eps min_pts root fuel st1 seeds1).cb,
             (expandLoop db eps min_pts root fuel st1 seeds1).log⟩ := by
          rw [expandLoop]
          simp only [← hq_def, ← hseeds1_def, ← hst1_def, ← hNq_def, ← hcd_def, hcd, if_true]
        rw [heq]
        have IH := ih st1 seeds1 (by rw [hlen1]; exact hdb) hfuel1 hnd1 hmem1 hsdb1 hiii1
        refine {
          len := IH.len.trans hlen1
          proc_mono := fun k hk => IH.proc_mono k (mono1 k hk)
          data := fun k => (IH.data k).trans (getPt_setProcessed_data st q k true)
          emitted_src := ?_
          emitted_nd := ?_
          proc_iff := ?_
          fresh_out := fun k hk hkp => IH.fresh_out k (by rw [hlen1]; exact hk) hkp
          seeds_done := ?_
          keep := ?_
          log := ?_ }
        · intro x hx
          rcases List.mem_cons.mp hx with h1 | h1
          · rw [h1]
            exact ⟨hqlen, hqproc, hsdb q hqmem⟩
          · obtain ⟨h1, h2, h3⟩ := IH.emitted_src x h1
            rw [hlen1] at h1
            exact ⟨h1, mono_contra1 x.1 h2, h3⟩
        · simp only [List.map_cons]
          refine List.nodup_cons.mpr ⟨?_, IH.emitted_nd⟩
          intro hqin
          obtain ⟨x, hx, hfst⟩ := List.mem_map.mp hqin
          have := (IH.emitted_src x hx).2.1
          rw [hfst, hproc1self] at this
          cases this
        · intro k
          rw [IH.proc_iff k, proc_iff1 k]
          simp only [List.map_cons, List.mem_cons]
          tauto
        · intro h hh
          by_cases hhq : h = q
          · rw [hhq]
            exact IH.proc_mono q hproc1self
          · exact IH.seeds_done h ((List.mem_erase_of_ne hhq).mpr hh)
        · intro k hk
          rw [IH.keep k (mono1 k hk), getPt_setProcessed_reach]
        · intro ev hev
          obtain ⟨h1, h2, h3, h4, h5⟩ := IH.log ev hev
          rw [hlen1] at h3
          exact ⟨h1, mono_contra1 _ h2, h3, h4, h5⟩
      · -- the popped point is a core object: update the seeds, then continue
        have heq : expandLoop db eps min_pts root (fuel + 1) st (s :: ss) =
            ⟨(expandLoop db eps min_pts root fuel
                (update_seeds (getPt st1 q).data cd_q N_q st1 seeds1).st
                (update_seeds (getPt st1 q).data cd_q N_q st1 seeds1).seeds).st,
             (q, (getPt st1 q).reachability_distance) ::
               (expandLoop db eps min_pts root fuel
                  (update_seeds (getPt st1 q).data cd_q N_q st1 seeds1).st
                  (update_seeds (getPt st1 q).data cd_q N_q st1 seeds1).seeds).emitted,
             root :: (expandLoop db eps min_pts root fuel
                  (update_seeds (getPt st1 q).data cd_q N_q st1 seeds1).st
                  (update_seeds (getPt st1 q).data cd_q N_q st1 seeds1).seeds).cb,
             (update_seeds (getPt st1 q).data cd_q N_q st1 seeds1).log ++
               (expandLoop db eps min_pts root fuel
                  (update_seeds (getPt st1 q).data cd_q N_q st1 seeds1).st
                  (update_seeds (getPt st1 q).data cd_q N_q st1 seeds1).seeds).log⟩ := by
          rw [expandLoop]
          simp only [← hq_def, ← hseeds1_def, ← hst1_def, ← hNq_def, ← hcd_def, hcd, if_false]
        rw [heq]
        set u := update_seeds (getPt st1 q).data cd_q N_q st1 seeds1 with hu_def
        have US : UpdateSpec st1 seeds1 N_q u :=
          update_seeds_spec _ cd_q N_q st1 seeds1 hcd
            (fun h hh => by rw [hlen1]; exact hdb h (hNq_db h hh)) hnd1 hmem1
        have hulen : u.st.length = st.length := US.len.trans hlen1
        have monoU : ∀ k, (getPt st1 k).is_processed = true →
            (getPt u.st k).is_processed = true := fun k hk => by rw [US.proc k]; exact hk
        have monoU_contra : ∀ k, (getPt u.st k).is_processed = false →
            (getPt st1 k).is_processed = false := fun k hk => by rw [← US.proc k]; exact hk
        have IH := ih u.st u.seeds
          (fun h hh => by rw [hulen]; exact hdb h hh)
          (by rw [US.cnt]; exact hfuel1)
          US.nd
          (fun h hh => by
            obtain ⟨h1, h2, h3⟩ := US.mem h hh
            rw [← US.len] at h1
            exact ⟨h1, h2, h3⟩)
          (fun h hh => (US.sub h hh).elim (hsdb1 h) (hNq_db h))
          (by
            intro k hk hkp
            have hk1 : k < st1.length := by rw [← US.len]; exact hk
            rcases hiii1 k hk1 (monoU_contra k hkp) with h1 | h1
            · exact Or.inl (US.grow k h1)
            · by_cases h2 : (getPt u.st k).reachability_distance =
                  (getPt st1 k).reachability_distance
              · rw [h2]
                exact Or.inr h1
              · exact Or.inl (US.chg k h2))
        have keepU : ∀ k, (getPt st1 k).is_processed = true →
            (getPt u.st k).reachability_distance = (getPt st1 k).reachability_distance := by
          intro k hk
          by_contra hne
          have := (US.mem k (US.chg k hne)).2.1
          rw [US.proc k, hk] at this
          cases this
        refine {
          len := IH.len.trans hulen
          proc_mono := fun k hk => IH.proc_mono k (monoU k (mono1 k hk))
          data := fun k => (IH.data k).trans ((US.data k).trans
            (getPt_setProcessed_data st q k true))
          emitted_src := ?_
          emitted_nd := ?_
          proc_iff := ?_
          fresh_out := fun k hk hkp => IH.fresh_out k (by rw [hulen]; exact hk) hkp
          seeds_done := ?_
          keep := ?_
          log := ?_ }
        · intro x hx
          rcases List.mem_cons.mp hx with h1 | h1
          · rw [h1]
            exact ⟨hqlen, hqproc, hsdb q hqmem⟩
          · obtain ⟨h1, h2, h3⟩ := IH.emitted_src x h1
            rw [hulen] at h1
            exact ⟨h1, mono_contra1 x.1 (monoU_contra x.1 h2), h3⟩
        · simp only [List.map_cons]
          refine List.nodup_cons.mpr ⟨?_, IH.emitted_nd⟩
          intro hqin
          obtain ⟨x, hx, hfst⟩ := List.mem_map.mp hqin
          have := (IH.emitted_src x hx).2.1
          rw [hfst, US.proc q, hproc1self] at this
          cases this
        · intro k
          rw [IH.proc_iff k, US.proc k, proc_iff1 k]
          simp only [List.map_cons, List.mem_cons]
          tauto
        · intro h hh
          by_cases hhq : h = q
          · rw [hhq]
            exact IH.proc_mono q (monoU q hproc1self)
          · exact IH.seeds_done h (US.grow h ((List.mem_erase_of_ne hhq).mpr hh))
        · intro k hk
          have hk1 : (getPt st1 k).is_processed = true := mono1 k hk
          rw [IH.keep k (monoU k hk1), keepU k hk1, getPt_setProcessed_reach]
        · intro ev hev
          rcases List.mem_append.mp hev with h1 | h1
          · obtain ⟨h1, h2, h3, h4, h5⟩ := US.log ev h1
            rw [hlen1] at h3
            exact ⟨h1, mono_contra1 _ h2, h3, IH.seeds_done _ h4, h5⟩
          · obtain ⟨h1, h2, h3, h4, h5⟩ := IH.log ev h1
            rw [hulen] at h3
            exact ⟨h1, mono_contra1 _ (monoU_contra _ h2), h3, h4, h5⟩

theorem expand_spec (db : List Nat) (eps : R) (min_pts : Nat) (p : Nat) (st : State R)
    (hdb : ∀ h ∈ db, h < st.length) (hp : p ∈ db)
    (hpu : (getPt st p).is_processed = false)
    (hfresh : ∀ k, k < st.length → (getPt st k).is_processed = false →
      (getPt st k).reachability_distance = UNDEFINED) :
    ExpandSpec st p db (expand_cluster_order db p eps min_pts st) := by
  have hplen : p < st.length := hdb p hp
  have hrch : (getPt st p).reachability_distance = UNDEFINED := hfresh p hplen hpu
  set N_eps := get_neighbors (getPt st p).data eps db st with hNeps_def
  set st0 := setReach st p UNDEFINED with hst0_def
  have hst0 : ∀ k, getPt st0 k = getPt st k := by
    intro k
    rw [hst0_def, setReach, getPt_set]
    split
    · next hc =>
      rw [hc.1, ← hrch]
    · rfl
  have hlen0 : st0.length = st.length := length_setReach st p UNDEFINED
  have hplen0 : p < st0.length := by rw [hlen0]; exact hplen
  set cd_p := squared_core_distance (getPt st0 p).data min_pts N_eps st0 with hcdp_def
  set st1 := setProcessed st0 p true with hst1_def
  have hlen1 : st1.length = st.length := (length_setProcessed st0 p true).trans hlen0
  have hproc1self : (getPt st1 p).is_processed = true := getPt_setProcessed_self st0 hplen0 true
  have proc_iff1 : ∀ k, (getPt st1 k).is_processed = true ↔
      ((getPt st k).is_processed = true ∨ k = p) := by
    intro k
    rw [hst1_def]
    rw [getPt_setProcessed_proc_iff st0 hplen0 k, hst0 k]
  have mono1 : ∀ k, (getPt st k).is_processed = true →
      (getPt st1 k).is_processed = true := fun k hk => (proc_iff1 k).mpr (Or.inl hk)
  have mono_contra1 : ∀ k, (getPt st1 k).is_processed = false →
      (getPt st k).is_processed = false := by
    intro k hk
    cases hsk : (getPt st k).is_processed
    · rfl
    · rw [mono1 k hsk] at hk
      cases hk
  have hreach1 : ∀ k, (getPt st1 k).reachability_distance =
      (getPt st k).reachability_distance := by
    intro k
    rw [hst1_def, getPt_setProcessed_reach, hst0 k]
  have hdata1 : ∀ k, (getPt st1 k).data = (getPt st k).data := by
    intro k
    rw [hst1_def, getPt_setProcessed_data, hst0 k]
  have hrec0 : (getPt st1 p).reachability_distance = UNDEFINED := by
    rw [hreach1 p, hrch]
  have hcnt1 : countUnproc st = countUnproc st1 + 1 := by
    have h0 : countUnproc st0 = countUnproc st := by
      rw [hst0_def]
      exact countUnproc_setReach st p UNDEFINED
    have h1 : countUnproc st0 = countUnproc st1 + 1 := by
      rw [hst1_def]
      exact countUnproc_setProcessed_true st0 hplen0 (by rw [hst0 p]; exact hpu)
    omega
  have hNeps_db : ∀ h ∈ N_eps, h ∈ db := by
    intro h hh
    rw [hNeps_def, get_neighbors] at hh
    exact (List.mem_filter.mp hh).1
  by_cases hcd : cd_p = UNDEFINED
  · -- p is not a core object: emit only p
    have heq : expand_cluster_order db p eps min_pts st =
        ⟨st1, [(p, (getPt st1 p).reachability_distance)], [p],
         [⟨p, (getPt st p).reachability_distance, UNDEFINED, (getPt st p).is_processed⟩]⟩ := by
      rw [expand_cluster_order]
      simp only [← hNeps_def, ← hst0_def, ← hcdp_def, ← hst1_def, hcd, if_true]
    rw [heq]
    exact {
      len := hlen1
      proc_mono := mono1
      data := hdata1
      head := by rw [List.headI, hrec0]
      nonempty := by simp
      emitted_src := by
        intro x hx
        rcases List.mem_cons.mp hx with h1 | h1
        · rw [h1]
          exact ⟨hplen, hpu, hp⟩
        · exact absurd h1 (List.not_mem_nil x)
      emitted_nd := by simp
      proc_iff := fun k => by
        rw [proc_iff1 k]
        simp
      fresh_out := by
        intro k hk hkp
        rw [hreach1 k]
        exact hfresh k hk (mono_contra1 k hkp)
      root_proc := hproc1self
      root_reach := hrec0
      keep := fun k _ => hreach1 k
      log := by
        intro ev hev
        rcases List.mem_cons.mp hev with h1 | h1
        · rw [h1]
          exact ⟨hpu, hpu, hplen, hproc1self, Or.inl hrch⟩
        · exact absurd h1 (List.not_mem_nil ev) }
  · -- p is a core object: seed from its neighborhood and drain the loop
    have heq : expand_cluster_order db p eps min_pts st =
        ⟨(expandLoop db eps min_pts p st.length
            (update_seeds (getPt st1 p).data cd_p N_eps st1 []).st
            (update_seeds (getPt st1 p).data cd_p N_eps st1 []).seeds).st,
         (p, (getPt st1 p).reachability_distance) ::
           (expandLoop db eps min_pts p st.length
              (update_seeds (getPt st1 p).data cd_p N_eps st1 []).st
              (update_seeds (getPt st1 p).data cd_p N_eps st1 []).seeds).emitted,
         p :: (expandLoop db eps min_pts p st.length
              (update_seeds (getPt st1 p).data cd_p N_eps st1 []).st
              (update_seeds (getPt st1 p).data cd_p N_eps st1 []).seeds).cb,
         ⟨p, (getPt st p).reachability_distance, UNDEFINED, (getPt st p).is_processed⟩ ::
           ((update_seeds (getPt st1 p).data cd_p N_eps st1 []).log ++
             (expandLoop db eps min_pts p st.length
                (update_seeds (getPt st1 p).data cd_p N_eps st1 []).st
                (update_seeds (getPt st1 p).data cd_p N_eps st1 []).seeds).log)⟩ := by
      rw [expand_cluster_order]
      simp only [← hNeps_def, ← hst0_def, ← hcdp_def, ← hst1_def, hcd, if_false]
    rw [heq]
    set u := update_seeds (getPt st1 p).data cd_p N_eps st1 [] with hu_def
    have US : UpdateSpec st1 [] N_eps u :=
      update_seeds_spec _ cd_p N_eps st1 [] hcd
        (fun h hh => by rw [hlen1]; exact hdb h (hNeps_db h hh)) List.nodup_nil
        (fun h hh => absurd hh (List.not_mem_nil h))
    have hulen : u.st.length = st.length := US.len.trans hlen1
    have monoU : ∀ k, (getPt st1 k).is_processed = true →
        (getPt u.st k).is_processed = true := fun k hk => by rw [US.proc k]; exact hk
    have monoU_contra : ∀ k, (getPt u.st k).is_processed = false →
        (getPt st1 k).is_processed = false := fun k hk => by rw [← US.proc k]; exact hk
    have keepU : ∀ k, (getPt st1 k).is_processed = true →
        (getPt u.st k).reachability_distance = (getPt st1 k).reachability_distance := by
      intro k hk
      by_contra hne
      have := (US.mem k (US.chg k hne)).2.1
      rw [US.proc k, hk] at this
      cases this
    have LS : LoopSpec u.st u.seeds db
        (expandLoop db eps min_pts p st.length u.st u.seeds) :=
      expandLoop_spec db eps min_pts p st.length u.st u.seeds
        (fun h hh => by rw [hulen]; exact hdb h hh)
        (by
          rw [US.cnt]
          calc countUnproc st1 ≤ st1.length := countUnproc_le_length st1
          _ = st.length := hlen1)
        US.nd
        (fun h hh => by
          obtain ⟨h1, h2, h3⟩ := US.mem h hh
          rw [← US.len] at h1
          exact ⟨h1, h2, h3⟩)
        (fun h hh => (US.sub h hh).elim (fun hc => absurd hc (List.not_mem_nil h))
          (hNeps_db h))
        (by
          intro k hk hkp
          have hk1 : (getPt st1 k).is_processed = false := monoU_contra k hkp
          have hkst : (getPt st k).is_processed = false := mono_contra1 k hk1
          have hklen : k < st.length := by rw [← hulen]; exact hk
          have hrk : (getPt st1 k).reachability_distance = UNDEFINED := by
            rw [hreach1 k]
            exact hfresh k hklen hkst
          by_cases h2 : (getPt u.st k).reachability_distance =
              (getPt st1 k).reachability_distance
          · rw [h2]
            exact Or.inr hrk
          · exact Or.inl (US.chg k h2))
    have hrootU : (getPt u.st p).is_processed = true := monoU p hproc1self
    refine {
      len := LS.len.trans hulen
      proc_mono := fun k hk => LS.proc_mono k (monoU k (mono1 k hk))
      data := fun k => (LS.data k).trans ((US.data k).trans (hdata1 k))
      head := by rw [List.headI, hrec0]
      nonempty := by simp
      emitted_src := ?_
      emitted_nd := ?_
      proc_iff := ?_
      fresh_out := fun k hk hkp => LS.fresh_out k (by rw [hulen]; exact hk) hkp
      root_proc := LS.proc_mono p hrootU
      root_reach := by
        rw [LS.keep p hrootU, keepU p hproc1self, hrec0]
      keep := ?_
      log := ?_ }
    · intro x hx
      rcases List.mem_cons.mp hx with h1 | h1
      · rw [h1]
        exact ⟨hplen, hpu, hp⟩
      · obtain ⟨h1, h2, h3⟩ := LS.emitted_src x h1
        rw [hulen] at h1
        exact ⟨h1, mono_contra1 x.1 (monoU_contra x.1 h2), h3⟩
    · simp only [List.map_cons]
      refine List.nodup_cons.mpr ⟨?_, LS.emitted_nd⟩
      intro hpin
      obtain ⟨x, hx, hfst⟩ := List.mem_map.mp hpin
      have := (LS.emitted_src x hx).2.1
      rw [hfst, hrootU] at this
      cases this
    · intro k
      rw [LS.proc_iff k, US.proc k, proc_iff1 k]
      simp only [List.map_cons, List.mem_cons]
      tauto
    · intro k hk
      have hk1 : (getPt st1 k).is_processed = true := mono1 k hk
      rw [LS.keep k (monoU k hk1), keepU k hk1, hreach1 k]
    · intro ev hev
      rcases List.mem_cons.mp hev with h1 | h1
      · rw [h1]
        exact ⟨hpu, hpu, hplen, LS.proc_mono p hrootU, Or.inl hrch⟩
      · rcases List.mem_append.mp h1 with h2 | h2
        · obtain ⟨h2, h3, h4, h5, h6⟩ := US.log ev h2
          rw [hlen1] at h4
          exact ⟨h2, mono_contra1 _ h3, h4, LS.seeds_done _ h5,
            h6.elim (fun hx => Or.inr (Or.inl hx)) (fun hx => Or.inr (Or.inr hx))⟩
        · obtain ⟨h2, h3, h4, h5, h6⟩ := LS.log ev h2
          rw [hulen] at h4
          exact ⟨h2, mono_contra1 _ (monoU_contra _ h3), h4, h5,
            h6.elim (fun hx => Or.inr (Or.inl hx)) (fun hx => Or.inr (Or.inr hx))⟩

theorem opticsSegs_spec (db : List Nat) (eps : R) (min_pts : Nat) :
    ∀ (work : List Nat) (st : State R),
    (∀ h ∈ db, h < st.length) →
    (∀ h ∈ work, h ∈ db) →
    (∀ k, k < st.length → (getPt st k).is_processed = false →
      (getPt st k).reachability_distance = UNDEFINED) →
    RunSpec st db work (opticsSegs db eps min_pts work st) := by
  intro work
  induction work with
  | nil =>
    intro st hdb hwork hfresh
    rw [opticsSegs]
    exact {
      len := rfl
      proc_mono := fun _ hk => hk
      work_done := fun p hp => absurd hp (List.not_mem_nil p)
      emitted_src := fun x hx => absurd hx (by simp)
      emitted_nd := by simp
      proc_iff := fun k => by simp
      keep := fun _ _ => rfl
      segs := fun e he => absurd he (List.not_mem_nil e)
      log := fun ev hev => absurd hev (by simp)
      fresh_out := hfresh }
  | cons p rest ih =>
    intro st hdb hwork hfresh
    have hwrest : ∀ h ∈ rest, h ∈ db := fun h hh => hwork h (List.mem_cons_of_mem p hh)
    cases hpu : (getPt st p).is_processed with
    | true =>
      have heq : opticsSegs db eps min_pts (p :: rest) st =
          opticsSegs db eps min_pts rest st := by
        rw [opticsSegs]
        simp only [hpu, if_true]
      rw [heq]
      have RS := ih st hdb hwrest hfresh
      exact {
        len := RS.len
        proc_mono := RS.proc_mono
        work_done := by
          intro x hx
          rcases List.mem_cons.mp hx with h1 | h1
          · rw [h1]
            exact RS.proc_mono p hpu
          · exact RS.work_done x h1
        emitted_src := RS.emitted_src
        emitted_nd := RS.emitted_nd
        proc_iff := RS.proc_iff
        keep := RS.keep
        segs := RS.segs
        log := RS.log
        fresh_out := RS.fresh_out }
    | false =>
      have heq : opticsSegs db eps min_pts (p :: rest) st =
          ((opticsSegs db eps min_pts rest (expand_cluster_order db p eps min_pts st).st).1,
           expand_cluster_order db p eps min_pts st ::
             (opticsSegs db eps min_pts rest
               (expand_cluster_order db p eps min_pts st).st).2) := by
        rw [opticsSegs]
        simp only [hpu, Bool.false_eq_true, if_false]
      rw [heq]
      have ES := expand_spec db eps min_pts p st hdb (hwork p (List.mem_cons_self p rest))
        hpu hfresh
      set e := expand_cluster_order db p eps min_pts st with he_def
      have mono_contraE : ∀ k, (getPt e.st k).is_processed = false →
          (getPt st k).is_processed = false := by
        intro k hk
        cases hsk : (getPt st k).is_processed
        · rfl
        · rw [ES.proc_mono k hsk] at hk
          cases hk
      have RS := ih e.st (fun h hh => by rw [ES.len]; exact hdb h hh) hwrest
        (fun k hk hkp => ES.fresh_out k (by rw [← ES.len]; exact hk) hkp)
      set out := opticsSegs db eps min_pts rest e.st with hout_def
      refine {
        len := RS.len.trans ES.len
        proc_mono := fun k hk => RS.proc_mono k (ES.proc_mono k hk)
        work_done := ?_
        emitted_src := ?_
        emitted_nd := ?_
        proc_iff := ?_
        keep := ?_
        segs := ?_
        log := ?_
        fresh_out := fun k hk hkp => RS.fresh_out k (by rw [ES.len]; exact hk) hkp }
      · intro x hx
        rcases List.mem_cons.mp hx with h1 | h1
        · rw [h1]
          exact RS.proc_mono p ES.root_proc
        · exact RS.work_done x h1
      · intro x hx
        simp only [List.map_cons, List.flatten_cons, List.mem_append] at hx
        rcases hx with h1 | h1
        · exact ES.emitted_src x h1
        · obtain ⟨h1, h2, h3⟩ := RS.emitted_src x h1
          rw [ES.len] at h1
          exact ⟨h1, mono_contraE x.1 h2, h3⟩
      · simp only [List.map_cons, List.flatten_cons, List.map_append]
        refine ES.emitted_nd.append RS.emitted_nd ?_
        intro a ha hb
        obtain ⟨y, hy, hfsty⟩ := List.mem_map.mp hb
        have h1 : (getPt e.st a).is_processed = false := by
          rw [← hfsty]
          exact (RS.emitted_src y hy).2.1
        have h2 : (getPt e.st a).is_processed = true :=
          (ES.proc_iff a).mpr (Or.inr ha)
        rw [h2] at h1
        cases h1
      · intro k
        rw [RS.proc_iff k, ES.proc_iff k]
        simp only [List.map_cons, List.flatten_cons, List.map_append, List.mem_append]
        tauto
      · intro k hk
        rw [RS.keep k (ES.proc_mono k hk), ES.keep k hk]
      · intro x hx
        rcases List.mem_cons.mp hx with h1 | h1
        · subst h1
          refine ⟨ES.nonempty, by rw [ES.head], ?_⟩
          rw [ES.head]
          show (getPt out.1 p).reachability_distance = UNDEFINED
          rw [RS.keep p ES.root_proc, ES.root_reach]
        · exact RS.segs x h1
      · intro ev hev
        simp only [List.map_cons, List.flatten_cons, List.mem_append] at hev
        rcases hev with h1 | h1
        · obtain ⟨h2, _, _, _, h6⟩ := ES.log ev h1
          exact ⟨h2, h6⟩
        · exact RS.log ev h1

theorem update_seeds_len (cdata : List R) (c_dist : real R) (N_eps : List Nat) :
    ∀ (st : State R) (seeds : List Nat),
    (update_seeds cdata c_dist N_eps st seeds).st.length = st.length := by
  induction N_eps with
  | nil =>
    intro st seeds
    rw [update_seeds]
  | cons o rest ih =>
    intro st seeds
    rw [update_seeds]
    by_cases h1 : (getPt st o).is_processed
    · simp only [h1, if_true]
      exact ih st seeds
    · simp only [h1, Bool.false_eq_true, if_false]
      by_cases h2 : (getPt st o).reachability_distance = UNDEFINED
      · simp only [h2, if_true]
        exact (ih _ _).trans (length_setReach st o _)
      · simp only [h2, if_false]
        by_cases h3 : max c_dist ((squared_distance cdata (getPt st o).data : R) : real R) <
            (getPt st o).reachability_distance
        · simp only [h3, if_true]
          exact (ih _ _).trans (length_setReach st o _)
        · simp only [h3, if_false]
          exact ih st seeds

theorem expandLoop_len (db : List Nat) (eps : R) (min_pts : Nat) (root : Nat)
    (fuel : Nat) :
    ∀ (st : State R) (seeds : List Nat),
    (expandLoop db eps min_pts root fuel st seeds).st.length = st.length := by
  induction fuel with
  | zero =>
    intro st seeds
    rw [expandLoop]
  | succ fuel ih =>
    intro st seeds
    match seeds with
    | [] => rw [expandLoop]
    | s :: ss =>
      rw [expandLoop]
      by_cases hcd : squared_core_distance (getPt st (chooseMin st s ss)).data min_pts
          (get_neighbors (getPt st (chooseMin st s ss)).data eps db st) st = UNDEFINED
      · simp only [hcd, if_true]
        exact (ih _ _).trans (length_setProcessed st _ true)
      · simp only [hcd, if_false]
        exact (ih _ _).trans ((update_seeds_len _ _ _ _ _).trans
          (length_setProcessed st _ true))

theorem expand_len (db : List Nat) (eps : R) (min_pts : Nat) (p : Nat) (st : State R) :
    (expand_cluster_order db p eps min_pts st).st.length = st.length := by
  rw [expand_cluster_order]
  by_cases hcd : squared_core_distance
      (getPt (setReach st p UNDEFINED) p).data min_pts
      (get_neighbors (getPt st p).data eps db st) (setReach st p UNDEFINED) = UNDEFINED
  · simp only [hcd, if_true]
    exact (length_setProcessed _ p true).trans (length_setReach st p UNDEFINED)
  · simp only [hcd, if_false]
    exact (expandLoop_len _ _ _ _ _ _ _).trans ((update_seeds_len _ _ _ _ _).trans
      ((length_setProcessed _ p true).trans (length_setReach st p UNDEFINED)))

theorem expandLoop_unproc (db : List Nat) (eps : R) (min_pts : Nat) (root : Nat)
    (fuel : Nat) :
    ∀ (st : State R) (seeds : List Nat),
    (∀ h ∈ db, h < st.length) →
    seeds.Nodup →
    (∀ h ∈ seeds, h < st.length ∧ (getPt st h).is_processed = false ∧
      (getPt st h).reachability_distance ≠ UNDEFINED) →
    ((∀ k, (getPt st k).is_processed = true →
        (getPt (expandLoop db eps min_pts root fuel st seeds).st k).is_processed = true) ∧
      ∀ x ∈ (expandLoop db eps min_pts root fuel st seeds).emitted,
        (getPt st x.1).is_processed = false) := by
  induction fuel with
  | zero =>
    intro st seeds hdb hnd hmem
    rw [expandLoop]
    exact ⟨fun _ hk => hk, fun x hx => absurd hx (List.not_mem_nil x)⟩
  | succ fuel ih =>
    intro st seeds hdb hnd hmem
    match seeds with
    | [] =>
      rw [expandLoop]
      exact ⟨fun _ hk => hk, fun x hx => absurd hx (List.not_mem_nil x)⟩
    | s :: ss =>
      have hqmem : chooseMin st s ss ∈ s :: ss := chooseMin_mem st s ss
      obtain ⟨hqlen, hqproc, _⟩ := hmem _ hqmem
      set q := chooseMin st s ss with hq_def
      set seeds1 := (s :: ss).erase q with hseeds1_def
      set st1 := setProcessed st q true with hst1_def
      set N_q := get_neighbors (getPt st q).data eps db st with hNq_def
      set cd_q := squared_core_distance (getPt st q).data min_pts N_q st with hcd_def
      have hlen1 : st1.length = st.length := length_setProcessed st q true
      have mono1 : ∀ k, (getPt st k).is_processed = true →
          (getPt st1 k).is_processed = true :=
        fun k hk => (getPt_setProcessed_proc_iff st hqlen k).mpr (Or.inl hk)
      have mono_contra1 : ∀ k, (getPt st1 k).is_processed = false →
          (getPt st k).is_processed = false := by
        intro k hk
        cases hsk : (getPt st k).is_processed
        · rfl
        · rw [mono1 k hsk] at hk
          cases hk
      have hnd1 : seeds1.Nodup := hnd.erase q
      have hmem1 : ∀ h ∈ seeds1, h < st1.length ∧ (getPt st1 h).is_processed = false ∧
          (getPt st1 h).reachability_distance ≠ UNDEFINED := by
        intro h hh
        obtain ⟨hne, hin⟩ := hnd.mem_erase_iff.mp hh
        obtain ⟨h1, h2, h3⟩ := hmem h hin
        rw [getPt_setProcessed_ne st hne, hlen1]
        exact ⟨h1, h2, h3⟩
      by_cases hcd : cd_q = UNDEFINED
      · have heq : expandLoop db eps min_pts root (fuel + 1) st (s :: ss) =
            ⟨(expandLoop db eps min_pts root fuel st1 seeds1).st,
             (q, (getPt st1 q).reachability_distance) ::
               (expandLoop db eps min_pts root fuel st1 seeds1).emitted,
             root :: (expandLoop db eps min_pts root fuel st1 seeds1).cb,
             (expandLoop db eps min_pts root fuel st1 seeds1).log⟩ := by
          rw [expandLoop]
          simp only [← hq_def, ← hseeds1_def, ← hst1_def, ← hNq_def, ← hcd_def, hcd, if_true]
        rw [heq]
        obtain ⟨IHmono, IHemit⟩ := ih st1 seeds1 (by rw [hlen1]; exact hdb) hnd1 hmem1
        refine ⟨fun k hk => IHmono k (mono1 k hk), ?_⟩
        intro x hx
        rcases List.mem_cons.mp hx with h1 | h1
        · rw [h1]
          exact hqproc
        · exact mono_contra1 x.1 (IHemit x h1)
      · have heq : expandLoop db eps min_pts root (fuel + 1) st (s :: ss) =
            ⟨(expandLoop db eps min_pts root fuel
                (update_seeds (getPt st1 q).data cd_q N_q st1 seeds1).st
                (update_seeds (getPt st1 q).data cd_q N_q st1 seeds1).seeds).st,
             (q, (getPt st1 q).reachability_distance) ::
               (expandLoop db eps min_pts root fuel
                  (update_seeds (getPt st1 q).data cd_q N_q st1 seeds1).st
                  (update_seeds (getPt st1 q).data cd_q N_q st1 seeds1).seeds).emitted,
             root :: (expandLoop db eps min_pts root fuel
                  (update_seeds (getPt st1 q).data cd_q N_q st1 seeds1).st
                  (update_seeds (getPt st1 q).data cd_q N_q st1 seeds1).seeds).cb,
             (update_seeds (getPt st1 q).data cd_q N_q st1 seeds1).log ++
               (expandLoop db eps min_pts root fuel
                  (update_seeds (getPt st1 q).data cd_q N_q st1 seeds1).st
                  (update_seeds (getPt st1 q).data cd_q N_q st1 seeds1).seeds).log⟩ := by
          rw [expandLoop]
          simp only [← hq_def, ← hseeds1_def, ← hst1_def, ← hNq_def, ← hcd_def, hcd, if_false]
        rw [heq]
        set u := update_seeds (getPt st1 q).data cd_q N_q st1 seeds1 with hu_def
        have US : UpdateSpec st1 seeds1 N_q u :=
          update_seeds_spec _ cd_q N_q st1 seeds1 hcd
            (fun h hh => by
              rw [hlen1]
              refine hdb h ?_
              rw [hNq_def, get_neighbors] at hh
              exact (List.mem_filter.mp hh).1)
            hnd1 hmem1
        have monoU : ∀ k, (getPt st1 k).is_processed = true →
            (getPt u.st k).is_processed = true := fun k hk => by rw [US.proc k]; exact hk
        have monoU_contra : ∀ k, (getPt u.st k).is_processed = false →
            (getPt st1 k).is_processed = false := fun k hk => by rw [← US.proc k]; exact hk
        obtain ⟨IHmono, IHemit⟩ := ih u.st u.seeds
          (fun h hh => by rw [US.len, hlen1]; exact hdb h hh)
          US.nd
          (fun h hh => by
            obtain ⟨h1, h2, h3⟩ := US.mem h hh
            rw [← US.len] at h1
            exact ⟨h1, h2, h3⟩)
        refine ⟨fun k hk => IHmono k (monoU k (mono1 k hk)), ?_⟩
        intro x hx
        rcases List.mem_cons.mp hx with h1 | h1
        · rw [h1]
          exact hqproc
        · exact mono_contra1 x.1 (monoU_contra x.1 (IHemit x h1))

theorem expand_unproc (db : List Nat) (eps : R) (min_pts : Nat) (p : Nat) (st : State R)
    (hdb : ∀ h ∈ db, h < st.length) :
    ((∀ k, (getPt st k).is_processed = true →
        (getPt (expand_cluster_order db p eps min_pts st).st k).is_processed = true) ∧
      ∀ x ∈ (expand_cluster_order db p eps min_pts st).emitted,
        x.1 = p ∨ (getPt st x.1).is_processed = false) := by
  set N_eps := get_neighbors (getPt st p).data eps db st with hNeps_def
  set st0 := setReach st p UNDEFINED with hst0_def
  have hlen0 : st0.length = st.length := length_setReach st p UNDEFINED
  set cd_p := squared_core_distance (getPt st0 p).data min_pts N_eps st0 with hcdp_def
  set st1 := setProcessed st0 p true with hst1_def
  have hlen1 : st1.length = st.length := (length_setProcessed st0 p true).trans hlen0
  have hproc01 : ∀ k, (getPt st0 k).is_processed = (getPt st k).is_processed :=
    fun k => getPt_setReach_proc st p k UNDEFINED
  have mono1 : ∀ k, (getPt st k).is_processed = true →
      (getPt st1 k).is_processed = true := by
    intro k hk
    by_cases hkp : k = p
    · subst hkp
      by_cases hkl : k < st0.length
      · exact getPt_setProcessed_self st0 hkl true
      · rw [hst1_def, setProcessed, List.set_eq_of_length_le (Nat.le_of_not_lt hkl)]
        rw [hproc01 k]
        exact hk
    · rw [hst1_def, getPt_setProcessed_ne st0 hkp, hproc01 k]
      exact hk
  have mono_contra1 : ∀ k, (getPt st1 k).is_processed = false →
      (getPt st k).is_processed = false := by
    intro k hk
    cases hsk : (getPt st k).is_processed
    · rfl
    · rw [mono1 k hsk] at hk
      cases hk
  by_cases hcd : cd_p = UNDEFINED
  · have heq : expand_cluster_order db p eps min_pts st =
        ⟨st1, [(p, (getPt st1 p).reachability_distance)], [p],
         [⟨p, (getPt st p).reachability_distance, UNDEFINED, (getPt st p).is_processed⟩]⟩ := by
      rw [expand_cluster_order]
      simp only [← hNeps_def, ← hst0_def, ← hcdp_def, ← hst1_def, hcd, if_true]
    rw [heq]
    refine ⟨mono1, ?_⟩
    intro x hx
    rcases List.mem_cons.mp hx with h1 | h1
    · rw [h1]
      exact Or.inl rfl
    · exact absurd h1 (List.not_mem_nil x)
  · have heq : expand_cluster_order db p eps min_pts st =
        ⟨(expandLoop db eps min_pts p st.length
            (update_seeds (getPt st1 p).data cd_p N_eps st1 []).st
            (update_seeds (getPt st1 p).data cd_p N_eps st1 []).seeds).st,
         (p, (getPt st1 p).reachability_distance) ::
           (expandLoop db eps min_pts p st.length
              (update_seeds (getPt st1 p).data cd_p N_eps st1 []).st
              (update_seeds (getPt st1 p).data cd_p N_eps st1 []).seeds).emitted,
         p :: (expandLoop db eps min_pts p st.length
              (update_seeds (getPt st1 p).data cd_p N_eps st1 []).st
              (update_seeds (getPt st1 p).data cd_p N_eps st1 []).seeds).cb,
         ⟨p, (getPt st p).reachability_distance, UNDEFINED, (getPt st p).is_processed⟩ ::
           ((update_seeds (getPt st1 p).data cd_p N_eps st1 []).log ++
             (expandLoop db eps min_pts p st.length
                (update_seeds (getPt st1 p).data cd_p N_eps st1 []).st
                (update_seeds (getPt st1 p).data cd_p N_eps st1 []).seeds).log)⟩ := by
      rw [expand_cluster_order]
      simp only [← hNeps_def, ← hst0_def, ← hcdp_def, ← hst1_def, hcd, if_false]
    rw [heq]
    set u := update_seeds (getPt st1 p).data cd_p N_eps st1 [] with hu_def
    have US : UpdateSpec st1 [] N_eps u :=
      update_seeds_spec _ cd_p N_eps st1 [] hcd
        (fun h hh => by
          rw [hlen1]
          refine hdb h ?_
          rw [hNeps_def, get_neighbors] at hh
          exact (List.mem_filter.mp hh).1)
        List.nodup_nil
        (fun h hh => absurd hh (List.not_mem_nil h))
    have monoU : ∀ k, (getPt st1 k).is_processed = true →
        (getPt u.st k).is_processed = true := fun k hk => by rw [US.proc k]; exact hk
    have monoU_contra : ∀ k, (getPt u.st k).is_processed = false →
        (getPt st1 k).is_processed = false := fun k hk => by rw [← US.proc k]; exact hk
    obtain ⟨Lmono, Lemit⟩ := expandLoop_unproc db eps min_pts p st.length u.st u.seeds
      (fun h hh => by rw [US.len, hlen1]; exact hdb h hh)
      US.nd
      (fun h hh => by
        obtain ⟨h1, h2, h3⟩ := US.mem h hh
        rw [← US.len] at h1
        exact ⟨h1, h2, h3⟩)
    refine ⟨fun k hk => Lmono k (monoU k (mono1 k hk)), ?_⟩
    intro x hx
    rcases List.mem_cons.mp hx with h1 | h1
    · rw [h1]
      exact Or.inl rfl
    · exact Or.inr (mono_contra1 x.1 (monoU_contra x.1 (Lemit x h1)))

theorem opticsSegs_unproc (db : List Nat) (eps : R) (min_pts : Nat) :
    ∀ (work : List Nat) (st : State R),
    (∀ h ∈ db, h < st.length) →
    ∀ k, (getPt st k).is_processed = true →
      ((getPt (opticsSegs db eps min_pts work st).1 k).is_processed = true ∧
        k ∉ (((opticsSegs db eps min_pts work st).2.map
          ExpandResult.emitted).flatten).map Prod.fst) := by
  intro work
  induction work with
  | nil =>
    intro st hdb k hk
    rw [opticsSegs]
    exact ⟨hk, by simp⟩
  | cons p rest ih =>
    intro st hdb k hk
    cases hpu : (getPt st p).is_processed with
    | true =>
      have heq : opticsSegs db eps min_pts (p :: rest) st =
          opticsSegs db eps min_pts rest st := by
        rw [opticsSegs]
        simp only [hpu, if_true]
      rw [heq]
      exact ih st hdb k hk
    | false =>
      have heq : opticsSegs db eps min_pts (p :: rest) st =
          ((opticsSegs db eps min_pts rest (expand_cluster_order db p eps min_pts st).st).1,
           expand_cluster_order db p eps min_pts st ::
             (opticsSegs db eps min_pts rest
               (expand_cluster_order db p eps min_pts st).st).2) := by
        rw [opticsSegs]
        simp only [hpu, Bool.false_eq_true, if_false]
      rw [heq]
      obtain ⟨Emono, Eemit⟩ := expand_unproc db eps min_pts p st hdb
      set e := expand_cluster_order db p eps min_pts st with he_def
      obtain ⟨IH1, IH2⟩ := ih e.st
        (fun h hh => by rw [he_def, expand_len]; exact hdb h hh)
        k (Emono k hk)
      refine ⟨IH1, ?_⟩
      simp only [List.map_cons, List.flatten_cons, List.map_append, List.mem_append]
      intro hcon
      rcases hcon with h1 | h1
      · obtain ⟨x, hx, hfst⟩ := List.mem_map.mp h1
        rcases Eemit x hx with h2 | h2
        · rw [h2] at hfst
          rw [← hfst, hpu] at hk
          cases hk
        · rw [hfst, hk] at h2
          cases h2
      · exact IH2 h1

theorem getD_mem_of_lt {α : Type} (l : List α) (k : Nat) (d : α) (hk : k < l.length) :
    l.getD k d ∈ l := by
  induction l generalizing k with
  | nil => simp at hk
  | cons a as ih =>
    cases k with
    | zero => simp
    | succ n =>
      simp only [List.getD_cons_succ]
      exact List.mem_cons_of_mem a (ih n (Nat.lt_of_succ_lt_succ (by simpa using hk)))

theorem sorted_count_at (l : List R) (hl : l.Sorted (· ≤ ·)) (k : Nat) (hk : k < l.length) :
    k + 1 ≤ l.countP (fun d => decide (d ≤ l.getD k 0)) ∧
    l.countP (fun d => decide (d < l.getD k 0)) ≤ k := by
  induction l generalizing k with
  | nil => simp at hk
  | cons x xs ih =>
    obtain ⟨hx, hxs⟩ := List.sorted_cons.mp hl
    cases k with
    | zero =>
      simp only [List.getD_cons_zero]
      constructor
      · rw [List.countP_cons]
        simp
      · rw [List.countP_cons]
        have h1 : xs.countP (fun d => decide (d < x)) = 0 :=
          List.countP_eq_zero.mpr (fun a ha => by simp [not_lt.mpr (hx a ha)])
        simp [h1]
    | succ n =>
      have hn : n < xs.length := Nat.lt_of_succ_lt_succ (by simpa using hk)
      obtain ⟨ih1, ih2⟩ := ih hxs n hn
      simp only [List.getD_cons_succ]
      constructor
      · rw [List.countP_cons]
        have hxr : decide (x ≤ xs.getD n 0) = true := by
          simp only [decide_eq_true_eq]
          exact hx _ (getD_mem_of_lt xs n 0 hn)
        rw [hxr, if_pos rfl]
        omega
      · rw [List.countP_cons]
        split <;> omega

/-- Claim C2: `squared_core_distance` returns UNDEFINED when `|N_eps| ≤ min_pts`
and otherwise the `min_pts`-th order statistic (0-indexed from nearest) of the
squared distances from the query point to the points of `N_eps` — characterized
as a value among the distances with at least `min_pts + 1` distances `≤` it and
at most `min_pts` distances strictly below it.  (With `p ∈ N_eps`, index 0 of
the sorted distances is `p` itself at distance 0.) -/
theorem squared_core_distance_order_statistic (pdata : List R) (min_pts : Nat)
    (N_eps : List Nat) (st : State R)
    (hmp : 1 ≤ min_pts)
    (hself : ∃ q ∈ N_eps, (getPt st q).data = pdata) :
    (N_eps.length ≤ min_pts → squared_core_distance pdata min_pts N_eps st = UNDEFINED) ∧
    (min_pts < N_eps.length →
      squared_core_distance pdata min_pts N_eps st ≠ UNDEFINED ∧
      squared_core_distance pdata min_pts N_eps st ∈
        (neighborDists pdata N_eps st).map (fun (d : R) => (d : real R)) ∧
      min_pts + 1 ≤ (neighborDists pdata N_eps st).countP
        (fun (d : R) => decide ((d : real R) ≤ squared_core_distance pdata min_pts N_eps st)) ∧
      (neighborDists pdata N_eps st).countP
        (fun (d : R) => decide ((d : real R) < squared_core_distance pdata min_pts N_eps st)) ≤
        min_pts) := by
  constructor
  · intro hle
    rw [squared_core_distance, if_neg (not_lt.mpr hle)]
  · intro hlt
    have hval : squared_core_distance pdata min_pts N_eps st =
        ((((neighborDists pdata N_eps st).insertionSort (· ≤ ·)).getD min_pts 0 : R) :
          real R) := by
      rw [squared_core_distance, if_pos hlt]
    set dists := neighborDists pdata N_eps st with hd
    set sorted := dists.insertionSort (· ≤ ·) with hs
    have hperm : sorted.Perm dists := List.perm_insertionSort _ dists
    have hsorted : sorted.Sorted (· ≤ ·) := List.sorted_insertionSort _ dists
    have hdlen : dists.length = N_eps.length := List.length_map _ _
    have hk : min_pts < sorted.length := by
      rw [hperm.length_eq, hdlen]
      exact hlt
    obtain ⟨hc1, hc2⟩ := sorted_count_at sorted hsorted min_pts hk
    refine ⟨?_, ?_, ?_, ?_⟩
    · rw [hval]
      exact WithTop.coe_ne_top
    · rw [hval]
      exact List.mem_map.mpr ⟨sorted.getD min_pts 0,
        hperm.mem_iff.mp (getD_mem_of_lt sorted min_pts 0 hk), rfl⟩
    · rw [hval]
      have e1 : dists.countP
            (fun (d : R) => decide ((d : real R) ≤ ((sorted.getD min_pts 0 : R) : real R))) =
          dists.countP (fun d => decide (d ≤ sorted.getD min_pts 0)) :=
        List.countP_congr (fun a _ => by
          simp only [decide_eq_true_eq, WithTop.coe_le_coe])
      rw [e1, ← hperm.countP_eq]
      exact hc1
    · rw [hval]
      have e1 : dists.countP
            (fun (d : R) => decide ((d : real R) < ((sorted.getD min_pts 0 : R) : real R))) =
          dists.countP (fun d => decide (d < sorted.getD min_pts 0)) :=
        List.countP_congr (fun a _ => by
          simp only [decide_eq_true_eq, WithTop.coe_lt_coe])
      rw [e1, ← hperm.countP_eq]
      exact hc2

theorem clusterLoop_clusters_len (result : List (DataPoint R)) (thr : real R) :
    ∀ (bs : List Nat) (lo : Nat), ((clusterLoop result thr lo bs).2).length = bs.length + 1 := by
  intro bs
  induction bs with
  | nil =>
    intro lo
    rw [clusterLoop]
    rfl
  | cons b rest ih =>
    intro lo
    rw [clusterLoop]
    simp only [List.length_cons, ih b]

theorem clusterLoop_perm (result : List (DataPoint R)) (thr : real R) :
    ∀ (bs : List Nat) (lo : Nat), (∀ b ∈ bs, lo ≤ b) → bs.Sorted (· ≤ ·) →
    ((clusterLoop result thr lo bs).1 ++ ((clusterLoop result thr lo bs).2).flatten).Perm
      (result.drop lo) := by
  intro bs
  induction bs with
  | nil =>
    intro lo _ _
    rw [clusterLoop]
    simp only [List.flatten_cons, List.flatten_nil, List.append_nil]
    exact List.filter_append_perm _ (result.drop lo)
  | cons b rest ih =>
    intro lo hlo hsorted
    obtain ⟨hb, hrest⟩ := List.sorted_cons.mp hsorted
    have hlob : lo ≤ b := hlo b (List.mem_cons_self b rest)
    have IH := ih b hb hrest
    rw [clusterLoop]
    simp only [List.flatten_cons]
    have hsplit : (result.drop lo).take (b - lo) ++ result.drop b = result.drop lo := by
      have h1 : result.drop b = (result.drop lo).drop (b - lo) := by
        rw [List.drop_drop]
        congr 1
        omega
      rw [h1, List.take_append_drop]
    have step1 : ((((result.drop lo).take (b - lo)).filter
          (fun p => decide (thr < p.reachability_distance)) ++
          (clusterLoop result thr b rest).1) ++
        (((result.drop lo).take (b - lo)).filter
          (fun p => !decide (thr < p.reachability_distance)) ++
          ((clusterLoop result thr b rest).2).flatten)).Perm
        ((((result.drop lo).take (b - lo)).filter
          (fun p => decide (thr < p.reachability_distance)) ++
          ((result.drop lo).take (b - lo)).filter
            (fun p => !decide (thr < p.reachability_distance))) ++
          ((clusterLoop result thr b rest).1 ++
            ((clusterLoop result thr b rest).2).flatten)) :=
      List.perm_iff_count.mpr (fun a => by
        simp only [List.count_append]
        omega)
    refine step1.trans ?_
    have step2 := (List.filter_append_perm
      (fun p => decide (thr < p.reachability_distance))
      ((result.drop lo).take (b - lo))).append IH
    refine step2.trans ?_
    rw [hsplit]

/-- Claim C6: `extract_clusters` returns `|B| + 2` buckets (outlier bucket
first, then the `|B| + 1` segment buckets, empty buckets included), and the
buckets partition the ordering: their concatenation is a permutation of it. -/
theorem extract_clusters_partition (result : List (DataPoint R)) (cluster_borders : List Nat)
    (outlier_threshold : real R)
    (hsorted : cluster_borders.Sorted (· ≤ ·))
    (hrange : ∀ b ∈ cluster_borders, b ≤ result.length) :
    (extract_clusters result cluster_borders outlier_threshold).length =
      cluster_borders.length + 2 ∧
    ((extract_clusters result cluster_borders outlier_threshold).flatten).Perm result := by
  constructor
  · simp only [extract_clusters, List.length_cons, clusterLoop_clusters_len]
  · simp only [extract_clusters, List.flatten_cons]
    have := clusterLoop_perm result
      (if outlier_threshold ≤ 0 then UNDEFINED else outlier_threshold)
      cluster_borders 0 (fun b _ => Nat.zero_le b) hsorted
    simpa using this

theorem clusterLoop_cover (result : List (DataPoint R)) (thr : real R) :
    ∀ (bs : List Nat) (lo : Nat) (x : DataPoint R), x ∈ result.drop lo →
    x ∈ (clusterLoop result thr lo bs).1 ∨
      x ∈ ((clusterLoop result thr lo bs).2).flatten := by
  intro bs
  induction bs with
  | nil =>
    intro lo x hx
    rw [clusterLoop]
    cases hdec : decide (thr < x.reachability_distance)
    · right
      simp only [List.flatten_cons, List.flatten_nil, List.append_nil]
      exact List.mem_filter.mpr ⟨hx, by rw [hdec]; rfl⟩
    · left
      exact List.mem_filter.mpr ⟨hx, hdec⟩
  | cons b rest ih =>
    intro lo x hx
    rw [clusterLoop]
    have hsplit : result.drop lo =
        ((result.drop lo).take (b - lo)) ++ ((result.drop lo).drop (b - lo)) :=
      (List.take_append_drop _ _).symm
    rw [hsplit] at hx
    rcases List.mem_append.mp hx with h1 | h1
    · cases hdec : decide (thr < x.reachability_distance)
      · right
        simp only [List.flatten_cons, List.mem_append]
        exact Or.inl (List.mem_filter.mpr ⟨h1, by rw [hdec]; rfl⟩)
      · left
        exact List.mem_append.mpr (Or.inl (List.mem_filter.mpr ⟨h1, hdec⟩))
    · have h2 : x ∈ result.drop b := by
        rw [List.drop_drop] at h1
        have hble : b ≤ lo + (b - lo) := by omega
        have hsub : result.drop (lo + (b - lo)) ⊆ result.drop b := by
          intro y hy
          have he : (result.drop b).drop (lo + (b - lo) - b) = result.drop (lo + (b - lo)) := by
            rw [List.drop_drop]
            congr 1
            omega
          rw [← he] at hy
          exact List.drop_subset _ _ hy
        exact hsub h1
      rcases ih b x h2 with h3 | h3
      · exact Or.inl (List.mem_append.mpr (Or.inr h3))
      · right
        simp only [List.flatten_cons, List.mem_append]
        exact Or.inr h3

theorem clusterLoop_clusters_le (result : List (DataPoint R)) (thr : real R) :
    ∀ (bs : List Nat) (lo : Nat) (c : List (DataPoint R)),
    c ∈ (clusterLoop result thr lo bs).2 → ∀ x ∈ c, ¬(thr < x.reachability_distance) := by
  intro bs
  induction bs with
  | nil =>
    intro lo c hc x hx
    rw [clusterLoop] at hc
    simp only [List.mem_singleton] at hc
    subst hc
    have := (List.mem_filter.mp hx).2
    simpa using this
  | cons b rest ih =>
    intro lo c hc x hx
    rw [clusterLoop] at hc
    rcases List.mem_cons.mp hc with h1 | h1
    · subst h1
      have := (List.mem_filter.mp hx).2
      simpa using this
    · exact ih b c h1 x hx

/-- Claim C10: with an outlier threshold strictly between 0 and UNDEFINED, every
point of the ordering whose recorded reachability is UNDEFINED lands in the
outlier bucket (bucket 0): the UNDEFINED sentinel compares strictly greater
than the threshold. -/
theorem extract_clusters_undefined_outlier (result : List (DataPoint R))
    (cluster_borders : List Nat) (outlier_threshold : real R)
    (h0 : 0 < outlier_threshold) (hU : outlier_threshold < UNDEFINED)
    (p : DataPoint R) (hp : p ∈ result)
    (hr : p.reachability_distance = UNDEFINED) :
    p ∈ (extract_clusters result cluster_borders outlier_threshold).headI := by
  have hthr : (if outlier_threshold ≤ 0 then (UNDEFINED : real R) else outlier_threshold) =
      outlier_threshold := if_neg (not_le.mpr h0)
  simp only [extract_clusters, hthr, List.headI]
  have hcov := clusterLoop_cover result outlier_threshold cluster_borders 0 p (by simpa using hp)
  rcases hcov with h1 | h1
  · exact h1
  · obtain ⟨c, hc, hxc⟩ := List.mem_flatten.mp h1
    have := clusterLoop_clusters_le result outlier_threshold cluster_borders 0 c hc p hxc
    rw [hr] at this
    exact absurd hU this

/-- Claim C8: in top-k mode the peak finder returns the max-indices of the at
most `k - 1` most persistent paired extrema, in order of decreasing
persistence (given Persistence1D's ascending-persistence output order);
if fewer than `k - 1` paired extrema exist it returns all of them. -/
theorem find_k_histogram_peaks_topk (extrema : List (TPairedExtrema R)) (n_clusters : Nat)
    (hk : 1 ≤ n_clusters)
    (hsorted : extrema.Sorted (fun a b => a.Persistence ≤ b.Persistence)) :
    find_k_histogram_peaks extrema n_clusters =
      (extrema.reverse.take (n_clusters - 1)).map TPairedExtrema.MaxIndex ∧
    (find_k_histogram_peaks extrema n_clusters).length ≤ n_clusters - 1 ∧
    (extrema.length ≤ n_clusters - 1 →
      find_k_histogram_peaks extrema n_clusters =
        (extrema.map TPairedExtrema.MaxIndex).reverse) ∧
    (extrema.reverse.take (n_clusters - 1)).Sorted
      (fun a b => b.Persistence ≤ a.Persistence) ∧
    (∀ x ∈ extrema.reverse.take (n_clusters - 1),
      ∀ y ∈ extrema.reverse.drop (n_clusters - 1), y.Persistence ≤ x.Persistence) := by
  have hrev : extrema.reverse.Pairwise (fun a b => b.Persistence ≤ a.Persistence) := by
    rw [List.pairwise_reverse]
    exact hsorted
  refine ⟨rfl, ?_, ?_, ?_, ?_⟩
  · rw [find_k_histogram_peaks, List.length_map, List.length_take]
    exact Nat.min_le_left _ _
  · intro hle
    rw [find_k_histogram_peaks,
      List.take_of_length_le (by rw [List.length_reverse]; exact hle), List.map_reverse]
  · exact hrev.sublist (List.take_sublist _ _)
  · intro x hx y hy
    rw [← List.take_append_drop (n_clusters - 1) extrema.reverse] at hrev
    exact (List.pairwise_append.mp hrev).2.2 x hx y hy

/-- Claim C9: calling `optics` with `eps < 0` or `min_pts = 0` signals
InvalidParameter at entry — the guard precedes the body, so no point-store
mutation happens and no ordering is produced (the error result carries
nothing). -/
theorem optics_invalid_parameter (db : List Nat) (eps : R) (min_pts : Nat)
    (st : State R) (h : eps < 0 ∨ min_pts = 0) :
    optics db eps min_pts st = Except.error OpticsError.InvalidParameter := by
  rw [optics, if_pos h]

theorem optics_invalid_parameter_witness :
    optics [] (-1 : ℤ) 1 [] = Except.error OpticsError.InvalidParameter :=
  optics_invalid_parameter [] (-1) 1 [] (Or.inl (by decide))

/-- Claim C3: for a valid run (parameters accepted, every point in its
constructor-fresh state), the ordering contains every dataset handle exactly
once: its length equals the dataset size and its handle multiset equals the
dataset multiset. -/
theorem optics_total_coverage (db : List Nat) (eps : R) (min_pts : Nat) (st : State R)
    (r : ExpandResult R)
    (hnd : db.Nodup)
    (hdb : ∀ h ∈ db, h < st.length)
    (hfresh : ∀ k, k < st.length → (getPt st k).is_processed = false ∧
      (getPt st k).reachability_distance = UNDEFINED)
    (hok : optics db eps min_pts st = Except.ok r) :
    r.emitted.length = db.length ∧ (r.emitted.map Prod.fst).Perm db := by
  rw [optics] at hok
  by_cases hguard : eps < 0 ∨ min_pts = 0
  · rw [if_pos hguard] at hok
    cases hok
  · rw [if_neg hguard] at hok
    simp only [Except.ok.injEq] at hok
    subst hok
    have RS := opticsSegs_spec db eps min_pts db st hdb (fun h hh => hh)
      (fun k hk hkp => (hfresh k hk).2)
    have hmemiff : ∀ a, a ∈ ((((opticsSegs db eps min_pts db st).2.map
        ExpandResult.emitted).flatten).map Prod.fst) ↔ a ∈ db := by
      intro a
      constructor
      · intro ha
        obtain ⟨x, hx, hfst⟩ := List.mem_map.mp ha
        exact hfst ▸ (RS.emitted_src x hx).2.2
      · intro ha
        have h1 := RS.work_done a ha
        rcases (RS.proc_iff a).mp h1 with h2 | h2
        · rw [(hfresh a (hdb a ha)).1] at h2
          cases h2
        · exact h2
    have hperm : (((((opticsSegs db eps min_pts db st).2.map
        ExpandResult.emitted).flatten).map Prod.fst)).Perm db :=
      List.perm_of_nodup_nodup_toFinset_eq RS.emitted_nd hnd
        (Finset.ext fun a => by
          simp only [List.mem_toFinset]
          exact hmemiff a)
    refine ⟨?_, hperm⟩
    have := hperm.length_eq
    rw [List.length_map] at this
    exact this

theorem optics_total_coverage_witness :
    ((((optics [0, 1] (2 : ℤ) 1 [{data := [0]}, {data := [1]}]).toOption.getD
        ⟨[], [], [], []⟩).emitted).map Prod.fst).Perm [0, 1] :=
  (optics_total_coverage [0, 1] (2 : ℤ) 1 [{data := [0]}, {data := [1]}]
    ((optics [0, 1] (2 : ℤ) 1 [{data := [0]}, {data := [1]}]).toOption.getD ⟨[], [], [], []⟩)
    (by decide) (by decide) (by decide) (by rfl)).2

/-- Claim C5: throughout a run from the constructor-fresh state, every
recorded reachability write hits an unprocessed point, and every
value-changing write is either UNDEFINED → finite or finite → strictly
smaller finite; a finite reachability is never increased. -/
theorem optics_monotone_reachability (db : List Nat) (eps : R) (min_pts : Nat)
    (st : State R) (r : ExpandResult R)
    (hdb : ∀ h ∈ db, h < st.length)
    (hfresh : ∀ k, k < st.length → (getPt st k).is_processed = false ∧
      (getPt st k).reachability_distance = UNDEFINED)
    (hok : optics db eps min_pts st = Except.ok r) :
    ∀ ev ∈ r.log, ev.wasProcessed = false ∧
      (ev.oldVal ≠ ev.newVal →
        (ev.oldVal = UNDEFINED ∧ ev.newVal ≠ UNDEFINED) ∨
        (ev.newVal < ev.oldVal ∧ ev.oldVal ≠ UNDEFINED ∧ ev.newVal ≠ UNDEFINED)) := by
  rw [optics] at hok
  by_cases hguard : eps < 0 ∨ min_pts = 0
  · rw [if_pos hguard] at hok
    cases hok
  · rw [if_neg hguard] at hok
    simp only [Except.ok.injEq] at hok
    subst hok
    have RS := opticsSegs_spec db eps min_pts db st hdb (fun h hh => hh)
      (fun k hk hkp => (hfresh k hk).2)
    intro ev hev
    obtain ⟨h1, h2⟩ := RS.log ev hev
    refine ⟨h1, fun hne => ?_⟩
    rcases h2 with h3 | h3 | h3
    · exact absurd h3 hne
    · exact Or.inl h3
    · exact Or.inr h3

theorem optics_monotone_reachability_witness :
    (⟨1, UNDEFINED, ((1 : ℤ) : real ℤ), false⟩ : WriteEvent ℤ).wasProcessed = false :=
  ((optics_monotone_reachability [0, 1] (2 : ℤ) 1 [{data := [0]}, {data := [1]}]
      ((optics [0, 1] (2 : ℤ) 1 [{data := [0]}, {data := [1]}]).toOption.getD ⟨[], [], [], []⟩)
      (by decide) (by decide) (by rfl))
    ⟨1, UNDEFINED, ((1 : ℤ) : real ℤ), false⟩ (by decide)).1

/-- Claim C7: in a run from the constructor-fresh state, every expand call
emits a nonempty segment whose first point carries recorded reachability
UNDEFINED, and that point's reachability is still UNDEFINED in the run's
final state — no later operation changes it. -/
theorem optics_first_emission_sentinel (db : List Nat) (eps : R) (min_pts : Nat)
    (st : State R)
    (hdb : ∀ h ∈ db, h < st.length)
    (hfresh : ∀ k, k < st.length → (getPt st k).is_processed = false ∧
      (getPt st k).reachability_distance = UNDEFINED) :
    ∀ e ∈ (opticsSegs db eps min_pts db st).2,
      e.emitted ≠ [] ∧ e.emitted.headI.2 = UNDEFINED ∧
      (getPt (opticsSegs db eps min_pts db st).1
        e.emitted.headI.1).reachability_distance = UNDEFINED :=
  (opticsSegs_spec db eps min_pts db st hdb (fun h hh => hh)
    (fun k hk hkp => (hfresh k hk).2)).segs

theorem optics_first_emission_sentinel_witness :
    ((opticsSegs [0, 1] (2 : ℤ) 1 [0, 1] [{data := [0]}, {data := [1]}]).2.getD 0
      ⟨[], [], [], []⟩).emitted.headI.2 = UNDEFINED :=
  ((optics_first_emission_sentinel [0, 1] (2 : ℤ) 1 [{data := [0]}, {data := [1]}]
      (by decide) (by decide))
    ((opticsSegs [0, 1] (2 : ℤ) 1 [0, 1] [{data := [0]}, {data := [1]}]).2.getD 0
      ⟨[], [], [], []⟩) (by decide)).2.1

/-- Claim C4 counterexample: `optics` performs no reset.  A single point
entering with `processed = true` is skipped and never emitted (empty
ordering), while the same point entering constructor-fresh is emitted — so a
rerun on an already-used store does not behave like a fresh run, and the
processed flags are not cleared before the first expand. -/
theorem optics_no_reset_counterexample :
    ((optics [0] (1 : ℤ) 1
        [{data := [0], reachability_distance := UNDEFINED, is_processed := true}]).toOption.map
      ExpandResult.emitted) = some [] ∧
    ((optics [0] (1 : ℤ) 1
        [{data := [0], reachability_distance := UNDEFINED, is_processed := false}]).toOption.map
      ExpandResult.emitted) = some [(0, UNDEFINED)] :=
  ⟨by decide, by decide⟩

/-- Claim C4 amended: `optics` does not reset the point store; the state the
points carry at entry is live.  Any point marked processed at entry is skipped
by the main loop and never emitted; only a dataset whose points are in their
constructor-fresh state runs as a fresh run. -/
theorem optics_entry_processed_never_emitted (db : List Nat) (eps : R) (min_pts : Nat)
    (st : State R) (r : ExpandResult R) (h : Nat)
    (hdb : ∀ k ∈ db, k < st.length)
    (hproc : (getPt st h).is_processed = true)
    (hok : optics db eps min_pts st = Except.ok r) :
    h ∉ r.emitted.map Prod.fst := by
  rw [optics] at hok
  by_cases hguard : eps < 0 ∨ min_pts = 0
  · rw [if_pos hguard] at hok
    cases hok
  · rw [if_neg hguard] at hok
    simp only [Except.ok.injEq] at hok
    subst hok
    exact (opticsSegs_unproc db eps min_pts db st hdb h hproc).2

theorem optics_entry_processed_never_emitted_witness :
    0 ∉ (((optics [0] (1 : ℤ) 1
        [{data := [0], reachability_distance := UNDEFINED, is_processed := true}]).toOption.getD
        ⟨[], [], [], []⟩).emitted.map Prod.fst) :=
  optics_entry_processed_never_emitted [0] (1 : ℤ) 1
    [{data := [0], reachability_distance := UNDEFINED, is_processed := true}]
    ((optics [0] (1 : ℤ) 1
        [{data := [0], reachability_distance := UNDEFINED, is_processed := true}]).toOption.getD
      ⟨[], [], [], []⟩)
    0 (by decide) (by decide) (by rfl)

/-- Claim C1 (source bug, evaluated): on the 1-D dataset {0, 1} with eps = 2
and min_pts = 1, the callback version emits handles [0, 1] but invokes the
progress callback with [0, 0] — the seed-loop emission of point 1 passes the
expand root `p` (handle 0) to the callback instead of the emitted point `q`
(handle 1), contradicting "invoked ... with the handle of the point that was
just emitted". -/
theorem optics_callback_receives_root :
    ((optics [0, 1] (2 : ℤ) 1 [{data := [0]}, {data := [1]}]).toOption.map
        ExpandResult.cb) = some [0, 0] ∧
    ((optics [0, 1] (2 : ℤ) 1 [{data := [0]}, {data := [1]}]).toOption.map
        (fun r => r.emitted.map Prod.fst)) = some [0, 1] :=
  ⟨by decide, by decide⟩

theorem squared_core_distance_order_statistic_witness :
    squared_core_distance (R := ℤ) [0] 1 [0, 1]
      [{data := [0]}, {data := [1]}] ≠ UNDEFINED ∧
    1 + 1 ≤ (neighborDists (R := ℤ) [0] [0, 1] [{data := [0]}, {data := [1]}]).countP
      (fun (d : ℤ) => decide ((d : real ℤ) ≤ squared_core_distance (R := ℤ) [0] 1 [0, 1]
        [{data := [0]}, {data := [1]}])) :=
  have happ := squared_core_distance_order_statistic (R := ℤ) [0] 1 [0, 1]
    [{data := [0]}, {data := [1]}] (by decide) ⟨0, by decide, by decide⟩
  ⟨(happ.2 (by decide)).1, (happ.2 (by decide)).2.2.1⟩

theorem extract_clusters_partition_witness :
    (extract_clusters (R := ℤ)
      [{data := [0]}, {data := [1], reachability_distance := ((5 : ℤ) : real ℤ)}]
      [1] ((3 : ℤ) : real ℤ)).length = 3 ∧
    ((extract_clusters (R := ℤ)
      [{data := [0]}, {data := [1], reachability_distance := ((5 : ℤ) : real ℤ)}]
      [1] ((3 : ℤ) : real ℤ)).flatten).Perm
      [{data := [0]}, {data := [1], reachability_distance := ((5 : ℤ) : real ℤ)}] :=
  extract_clusters_partition (R := ℤ)
    [{data := [0]}, {data := [1], reachability_distance := ((5 : ℤ) : real ℤ)}]
    [1] ((3 : ℤ) : real ℤ) (by decide) (by decide)

theorem extract_clusters_undefined_outlier_witness :
    ({data := [5], reachability_distance := UNDEFINED, is_processed := true} : DataPoint ℤ) ∈
      (extract_clusters (R := ℤ)
        [{data := [5], reachability_distance := UNDEFINED, is_processed := true}]
        [] ((1 : ℤ) : real ℤ)).headI :=
  extract_clusters_undefined_outlier (R := ℤ)
    [{data := [5], reachability_distance := UNDEFINED, is_processed := true}]
    [] ((1 : ℤ) : real ℤ) (by decide) (by decide)
    {data := [5], reachability_distance := UNDEFINED, is_processed := true}
    (by decide) (by decide)

theorem find_k_histogram_peaks_topk_witness :
    (find_k_histogram_peaks (R := ℤ) [⟨0, 1, 1⟩, ⟨2, 3, 2⟩] 2).length ≤ 1 :=
  (find_k_histogram_peaks_topk (R := ℤ) [⟨0, 1, 1⟩, ⟨2, 3, 2⟩] 2
    (by decide) (by decide)).2.1

end OPTICS

